import Mathlib

/-!
# Block-sync protocol (`chain/blocksync/protocol.go`)

A shallow embedding of the request options, the status-to-error mapping and the
decompression of compacted messages into full tipsets, followed by the
properties proved about them.

Conventions of the embedding:

* Go slices are lists; `uint64` values are natural numbers (no arithmetic is
  performed on them, they are only compared and used as indices).
* A Go pointer that the code dereferences is an `Option` (`none` is `nil`).
  Pointers that are only copied (block headers, messages) are values of an
  arbitrary type.
* A Go run-time panic is the error side of `Except Panic`.
* An `error` value is represented by its text (`Error()`); `nil` is `none`.
-/

namespace Blocksync

/-! ## Run-time panics -/

/-- The two run-time panics the code of this file can raise. -/
inductive Panic where
  /-- Go's `index out of range [idx] with length len`. -/
  | indexOutOfRange (idx len : Nat)
  /-- Go's `invalid memory address or nil pointer dereference`. -/
  | nilDereference
  deriving DecidableEq, Repr

/-- Slice indexing `xs[i]`, with Go's bounds check. -/
def index {α : Type} (xs : List α) (i : Nat) : Except Panic α :=
  match xs[i]? with
  | some x => .ok x
  | none => .error (.indexOutOfRange i xs.length)

/-- Pointer dereference `p.field`, with Go's nil check. -/
def deref {α : Type} (p : Option α) : Except Panic α :=
  match p with
  | some x => .ok x
  | none => .error .nilDereference

/-! ## Request options -/

/-- Option bit `Headers = 1 << iota` (iota = 0). -/
def Headers : Nat := 1

/-- Option bit `Messages` (`1 << iota`, iota = 1). -/
def Messages : Nat := 2

/-- The struct `parsedOptions`. -/
structure parsedOptions where
  IncludeHeaders : Bool
  IncludeMessages : Bool
  deriving DecidableEq, Repr

/-- The method `(options *parsedOptions) noOptionsSet()`. -/
def parsedOptions.noOptionsSet (options : parsedOptions) : Bool :=
  options.IncludeHeaders == false && options.IncludeMessages == false

/-- The function `parseOptions(optfield uint64)`. -/
def parseOptions (optfield : Nat) : parsedOptions :=
  { IncludeHeaders := optfield &&& Headers != 0
    IncludeMessages := optfield &&& Messages != 0 }

/-- The struct `Request`; `C` stands for `cid.Cid`. -/
structure Request (C : Type) where
  Head : List C
  Length : Nat
  Options : Nat

/-- The struct `validatedRequest`; the head is the tipset key made of the CIDs
of the request, and `options` points to the parsed options. -/
structure validatedRequest (C : Type) where
  head : List C
  length : Nat
  options : parsedOptions

/-- Modelled from the spec: the reasons for which the request validator (§4.2,
§7 `InvalidRequest`), which is not in this file, rejects a request: empty head,
length out of bounds, no options set. -/
inductive InvalidRequest where
  | emptyHead
  | lengthOutOfBounds
  | noOptionsSet
  deriving DecidableEq, Repr

/-- Modelled from the spec: the request validator (§4.2), which is not in this
file. Checks, in order: the head is not empty; the length is in
`[1, MaxRequestLength]`; the unpacked options have at least one flag set. The
constant `MaxRequestLength` comes from the node configuration and is a
parameter. -/
def validateRequest {C : Type} (maxRequestLength : Nat) (req : Request C) :
    Except InvalidRequest (validatedRequest C) :=
  if req.Head.isEmpty then .error .emptyHead
  else if req.Length = 0 ∨ maxRequestLength < req.Length then .error .lengthOutOfBounds
  else if (parseOptions req.Options).noOptionsSet then .error .noOptionsSet
  else .ok { head := req.Head, length := req.Length, options := parseOptions req.Options }

/-! ## Compacted messages and tipsets -/

/-- The struct `CompactedMessages`; `M` stands for `*types.Message` and `S` for
`*types.SignedMessage`. -/
structure CompactedMessages (M S : Type) where
  Bls : List M
  BlsIncludes : List (List Nat)
  Secpk : List S
  SecpkIncludes : List (List Nat)

/-- The struct `BSTipSet`; `H` stands for `*types.BlockHeader`. -/
structure BSTipSet (H M S : Type) where
  Blocks : List H
  Messages : Option (CompactedMessages M S)

/-- Modelled from the spec: `types.TipSet`, declared outside this file. The code
only calls its method `Blocks()`, the ordered sequence of block headers of the
tip set; a tip set is taken to be that sequence. -/
structure TipSet (H : Type) where
  Blocks : List H

/-- Modelled from the spec: `types.FullBlock`, declared outside this file: a
block header with its materialized, per-scheme, ordered message lists. -/
structure FullBlock (H M S : Type) where
  Header : H
  BlsMessages : List M
  SecpkMessages : List S

/-- Modelled from the spec: `store.FullTipSet`, declared outside this file: the
ordered blocks of a tip set, each with its messages. -/
structure FullTipSet (H M S : Type) where
  Blocks : List (FullBlock H M S)

/-- The struct `ValidatedResponse`. The entries of `Messages` are pointers and
may be `nil`. -/
structure ValidatedResponse (H M S : Type) where
  Tipsets : List (TipSet H)
  Messages : List (Option (CompactedMessages M S))

/-! ## Responses and their status -/

/-- The constant `Ok` of type `status`. -/
def Ok : Nat := 0
/-- The constant `Partial`. -/
def Partial : Nat := 101
/-- The constant `NotFound`. -/
def NotFound : Nat := 201
/-- The constant `GoAway`. -/
def GoAway : Nat := 202
/-- The constant `InternalError`. -/
def InternalError : Nat := 203
/-- The constant `BadRequest`. -/
def BadRequest : Nat := 204

/-- The struct `Response`; `Status` is the `uint64` behind the type `status`. -/
structure Response (H M S : Type) where
  Status : Nat
  ErrorMessage : String
  Chain : List (Option (BSTipSet H M S))

/-- A non-nil `error` built by `xerrors.Errorf`, represented by its text. -/
structure GoError where
  text : String
  deriving DecidableEq, Repr

/-- The method `(res *Response) statusToError()`; `none` is the `nil` error.
The verb `%s` inserts the string as it is and `%d` the decimal digits of the
status. -/
def Response.statusToError {H M S : Type} (res : Response H M S) : Option GoError :=
  if res.Status = Ok ∨ res.Status = Partial then none
  else if res.Status = NotFound then some ⟨"not found"⟩
  else if res.Status = GoAway then
    some ⟨"not handling 'go away' blocksync responses yet"⟩
  else if res.Status = InternalError then
    some ⟨"block sync peer errored: " ++ res.ErrorMessage⟩
  else if res.Status = BadRequest then
    some ⟨"block sync request invalid: " ++ res.ErrorMessage⟩
  else some ⟨"unrecognized response code: " ++ toString res.Status⟩

/-- The kinds of error of the status taxonomy: the four error statuses and the
unrecognized status. -/
inductive ErrorKind where
  | notFound
  | goAway
  | internalError
  | badRequest
  | unrecognized
  deriving DecidableEq, Repr

/-- The kind of error a status other than `Ok` and `Partial` stands for. -/
def errorKind (status : Nat) : ErrorKind :=
  if status = NotFound then .notFound
  else if status = GoAway then .goAway
  else if status = InternalError then .internalError
  else if status = BadRequest then .badRequest
  else .unrecognized

/-- Reads the kind of error back from the text of an error of `statusToError`,
looking at the characters at positions 0, 4 and 11 of the text. -/
def kindOfText (text : String) : ErrorKind :=
  if text.data[0]? = some 'u' then .unrecognized
  else if text.data[0]? = some 'b' then
    if text.data[11]? = some 'p' then .internalError else .badRequest
  else if text.data[4]? = some 'f' then .notFound
  else .goAway

/-! ## Decompression: `toFullTipSets` -/

/-- The two innermost loops of `toFullTipSets`,
`for _, mi := range includes { msgs = append(msgs, pool[mi]) }`:
`acc` is the slice built so far. -/
def appendIncluded {α : Type} (pool : List α) : List Nat → List α → Except Panic (List α)
  | [], acc => .ok acc
  | mi :: rest, acc =>
    match index pool mi with
    | .error p => .error p
    | .ok m => appendIncluded pool rest (acc ++ [m])

/-- The body of the loop over the blocks of a tipset: builds the `FullBlock` of
the header `b` at position `blockIdx`, reading `msgs.BlsIncludes[blockIdx]` and
then `msgs.SecpkIncludes[blockIdx]`. -/
def fullBlock {H M S : Type} (msgs : Option (CompactedMessages M S)) (blockIdx : Nat)
    (b : H) : Except Panic (FullBlock H M S) :=
  match deref msgs with
  | .error p => .error p
  | .ok m =>
    match index m.BlsIncludes blockIdx with
    | .error p => .error p
    | .ok blsIncl =>
      match appendIncluded m.Bls blsIncl [] with
      | .error p => .error p
      | .ok bls =>
        match index m.SecpkIncludes blockIdx with
        | .error p => .error p
        | .ok secpkIncl =>
          match appendIncluded m.Secpk secpkIncl [] with
          | .error p => .error p
          | .ok secpk => .ok { Header := b, BlsMessages := bls, SecpkMessages := secpk }

/-- The loop `for blockIdx, b := range res.Tipsets[tipsetIdx].Blocks()`: the
blocks still to visit, the index of the first of them and `fts.Blocks` so far. -/
def blocksLoop {H M S : Type} (msgs : Option (CompactedMessages M S)) :
    List H → Nat → List (FullBlock H M S) → Except Panic (List (FullBlock H M S))
  | [], _, acc => .ok acc
  | b :: rest, blockIdx, acc =>
    match fullBlock msgs blockIdx b with
    | .error p => .error p
    | .ok fb => blocksLoop msgs rest (blockIdx + 1) (acc ++ [fb])

/-- The loop `for tipsetIdx := range res.Tipsets`: the tipsets still to visit,
the index of the first of them and `ftsList` so far. `res.Messages[tipsetIdx]`
is read before the blocks are visited. -/
def tipsetsLoop {H M S : Type} (messages : List (Option (CompactedMessages M S))) :
    List (TipSet H) → Nat → List (Option (FullTipSet H M S)) →
      Except Panic (List (Option (FullTipSet H M S)))
  | [], _, ftsList => .ok ftsList
  | ts :: rest, tipsetIdx, ftsList =>
    match index messages tipsetIdx with
    | .error p => .error p
    | .ok msgs =>
      match blocksLoop msgs ts.Blocks 0 [] with
      | .error p => .error p
      | .ok blocks =>
        tipsetsLoop messages rest (tipsetIdx + 1) (ftsList.set tipsetIdx (some { Blocks := blocks }))

/-- The method `(res *ValidatedResponse) toFullTipSets()`. The result is a slice
of pointers: `none` is the `nil` slice, and an entry `none` a `nil` pointer
(`make` fills the slice with them before the loop assigns every position). -/
def ValidatedResponse.toFullTipSets {H M S : Type} (res : ValidatedResponse H M S) :
    Except Panic (Option (List (Option (FullTipSet H M S)))) :=
  if res.Tipsets.length = 0 then .ok none
  else
    match tipsetsLoop res.Messages res.Tipsets 0 (List.replicate res.Tipsets.length none) with
    | .error p => .error p
    | .ok ftsList => .ok (some ftsList)

/-! ## The serving-side encoder -/

/-- Modelled from the spec: the encoder of compacted messages (§4.3), which is
not in this file. Inserts one message in a pool: a message already in the pool
is not inserted again; returns the pool and the index of the message in it. The
dedup key, the content identity of the message, is equality of messages. -/
def insertMessage {α : Type} [DecidableEq α] (pool : List α) (m : α) : List α × Nat :=
  if m ∈ pool then (pool, pool.indexOf m) else (pool ++ [m], pool.length)

/-- Modelled from the spec: the encoder (§4.3) on the ordered message list of
one block: records the pool indices in the order the block references the
messages. -/
def compactList {α : Type} [DecidableEq α] (pool : List α) : List α → List α × List Nat
  | [] => (pool, [])
  | m :: rest =>
    let r := insertMessage pool m
    let rs := compactList r.1 rest
    (rs.1, r.2 :: rs.2)

/-- Modelled from the spec: the encoder (§4.3) on the blocks of a tip set, in
block order, all sharing one pool. -/
def compactLists {α : Type} [DecidableEq α] (pool : List α) :
    List (List α) → List α × List (List Nat)
  | [] => (pool, [])
  | msgs :: rest =>
    let r := compactList pool msgs
    let rs := compactLists r.1 rest
    (rs.1, r.2 :: rs.2)

/-- Modelled from the spec: the encoder (§4.3) of one tip set: two pools, one
per scheme, and for each block its list of pool indices. -/
def compactMessages {H M S : Type} [DecidableEq M] [DecidableEq S]
    (fts : FullTipSet H M S) : CompactedMessages M S :=
  let bls := compactLists [] (fts.Blocks.map (fun fb => fb.BlsMessages))
  let secpk := compactLists [] (fts.Blocks.map (fun fb => fb.SecpkMessages))
  { Bls := bls.1, BlsIncludes := bls.2, Secpk := secpk.1, SecpkIncludes := secpk.2 }

/-- Modelled from the spec: the encoding of a chain of full tip sets as the
response that `toFullTipSets` receives: the headers of each tip set and its
compacted messages. -/
def compactChain {H M S : Type} [DecidableEq M] [DecidableEq S]
    (chain : List (FullTipSet H M S)) : ValidatedResponse H M S :=
  { Tipsets := chain.map (fun fts => { Blocks := fts.Blocks.map (fun fb => fb.Header) })
    Messages := chain.map (fun fts => some (compactMessages fts)) }

/-! ## Conditions on a response and the expected result -/

/-- The pool entries selected by a list of indices, in list order; an index
outside the pool selects nothing. -/
def resolve {α : Type} (pool : List α) (includes : List Nat) : List α :=
  includes.filterMap (fun k => pool[k]?)

/-- Block `i` can be decompressed from `m`: both inclusion lists of the block
exist and each of their indices is below the length of its pool. -/
def BlockOk {M S : Type} (m : CompactedMessages M S) (i : Nat) : Prop :=
  (∃ l, m.BlsIncludes[i]? = some l ∧ ∀ k ∈ l, k < m.Bls.length) ∧
  (∃ l, m.SecpkIncludes[i]? = some l ∧ ∀ k ∈ l, k < m.Secpk.length)

/-- The full block of header `b` at position `i` of a tip set with compacted
messages `m`. -/
def expectedBlock {H M S : Type} (m : CompactedMessages M S) (i : Nat) (b : H) :
    FullBlock H M S :=
  { Header := b
    BlsMessages := resolve m.Bls (m.BlsIncludes[i]?.getD [])
    SecpkMessages := resolve m.Secpk (m.SecpkIncludes[i]?.getD []) }

/-- Tipset `ts` at position `t` can be decompressed: `messages[t]` exists, and
if the tipset has blocks it is not nil and every block can be decompressed. -/
def TipsetOk {H M S : Type} (messages : List (Option (CompactedMessages M S))) (t : Nat)
    (ts : TipSet H) : Prop :=
  ∃ msgs, messages[t]? = some msgs ∧
    (ts.Blocks = [] ∨ ∃ m, msgs = some m ∧ ∀ i, i < ts.Blocks.length → BlockOk m i)

/-- A well-formed response: `Messages` has an entry for each tipset, the entry's
`BlsIncludes` and `SecpkIncludes` have one list per block, and every index is
below the length of its pool. -/
def WellFormed {H M S : Type} (res : ValidatedResponse H M S) : Prop :=
  ∀ (t : Nat) (ts : TipSet H), res.Tipsets[t]? = some ts →
    ∃ m : CompactedMessages M S, res.Messages[t]? = some (some m) ∧
      m.BlsIncludes.length = ts.Blocks.length ∧
      m.SecpkIncludes.length = ts.Blocks.length ∧
      (∀ l ∈ m.BlsIncludes, ∀ k ∈ l, k < m.Bls.length) ∧
      (∀ l ∈ m.SecpkIncludes, ∀ k ∈ l, k < m.Secpk.length)

/-- Some inclusion index used by a block of the response is not below the
length of its pool. -/
def IndexOutOfPool {H M S : Type} (res : ValidatedResponse H M S) : Prop :=
  ∃ (t : Nat) (ts : TipSet H) (m : CompactedMessages M S) (i : Nat) (l : List Nat) (k : Nat),
    res.Tipsets[t]? = some ts ∧ res.Messages[t]? = some (some m) ∧
    i < ts.Blocks.length ∧ k ∈ l ∧
    ((m.BlsIncludes[i]? = some l ∧ m.Bls.length ≤ k) ∨
      (m.SecpkIncludes[i]? = some l ∧ m.Secpk.length ≤ k))

/-- Some tipset of the response has fewer lists in `BlsIncludes` or in
`SecpkIncludes` than it has blocks. -/
def IncludesTooShort {H M S : Type} (res : ValidatedResponse H M S) : Prop :=
  ∃ (t : Nat) (ts : TipSet H) (m : CompactedMessages M S),
    res.Tipsets[t]? = some ts ∧ res.Messages[t]? = some (some m) ∧
    (m.BlsIncludes.length < ts.Blocks.length ∨ m.SecpkIncludes.length < ts.Blocks.length)

/-- Every tipset of the response has compacted messages with at least one list
per block in `BlsIncludes` and in `SecpkIncludes`, and every index of the lists
of its blocks is below the length of its pool. -/
def IncludesCover {H M S : Type} (res : ValidatedResponse H M S) : Prop :=
  ∀ (t : Nat) (ts : TipSet H), res.Tipsets[t]? = some ts →
    ∃ m : CompactedMessages M S, res.Messages[t]? = some (some m) ∧
      ts.Blocks.length ≤ m.BlsIncludes.length ∧
      ts.Blocks.length ≤ m.SecpkIncludes.length ∧
      (∀ i l, i < ts.Blocks.length → m.BlsIncludes[i]? = some l → ∀ k ∈ l, k < m.Bls.length) ∧
      (∀ i l, i < ts.Blocks.length → m.SecpkIncludes[i]? = some l →
        ∀ k ∈ l, k < m.Secpk.length)

/-- Some tipset is missing its compacted messages: `Messages` is shorter than
`Tipsets`, or the entry of a tipset that has blocks is nil. -/
def MessagesMissing {H M S : Type} (res : ValidatedResponse H M S) : Prop :=
  res.Messages.length < res.Tipsets.length ∨
    ∃ (t : Nat) (ts : TipSet H), res.Tipsets[t]? = some ts ∧ ts.Blocks ≠ [] ∧ res.Messages[t]? = some none

/-- Every tipset of the response has a non-nil entry in `Messages` with at least
one list per block in `BlsIncludes` and in `SecpkIncludes` (nothing is said of
the indices in the lists). -/
def ListsPresent {H M S : Type} (res : ValidatedResponse H M S) : Prop :=
  ∀ (t : Nat) (ts : TipSet H), res.Tipsets[t]? = some ts →
    ∃ m : CompactedMessages M S, res.Messages[t]? = some (some m) ∧
      ts.Blocks.length ≤ m.BlsIncludes.length ∧
      ts.Blocks.length ≤ m.SecpkIncludes.length

/-- The panic `p` is the bounds check of a pool access of block `i`: an index
`k` of `BlsIncludes[i]` or of `SecpkIncludes[i]` is not below the length of its
pool and `p` is `index out of range [k] with length` that length. -/
def BlockPoolPanic {M S : Type} (m : CompactedMessages M S) (i : Nat) (p : Panic) : Prop :=
  ∃ (l : List Nat) (k : Nat), k ∈ l ∧
    ((m.BlsIncludes[i]? = some l ∧ m.Bls.length ≤ k ∧
        p = .indexOutOfRange k m.Bls.length) ∨
      (m.SecpkIncludes[i]? = some l ∧ m.Secpk.length ≤ k ∧
        p = .indexOutOfRange k m.Secpk.length))

/-- The panic `p` is the bounds check of a pool access of some block of some
tipset of the response. -/
def PoolPanic {H M S : Type} (res : ValidatedResponse H M S) (p : Panic) : Prop :=
  ∃ (t : Nat) (ts : TipSet H) (m : CompactedMessages M S) (i : Nat),
    res.Tipsets[t]? = some ts ∧ res.Messages[t]? = some (some m) ∧
    i < ts.Blocks.length ∧ BlockPoolPanic m i p

/-- The full blocks of a tipset whose compacted messages are `msgs`. -/
def expectedBlocks {H M S : Type} (msgs : Option (CompactedMessages M S))
    (blocks : List H) : List (FullBlock H M S) :=
  match msgs with
  | some m => (blocks.enumFrom 0).map (fun p => expectedBlock m p.1 p.2)
  | none => []

/-- The full tipset of tipset `ts` at position `t`. -/
def expectedTipSet {H M S : Type} (messages : List (Option (CompactedMessages M S)))
    (t : Nat) (ts : TipSet H) : FullTipSet H M S :=
  { Blocks := expectedBlocks (messages[t]?.getD none) ts.Blocks }

/-! ## Concrete responses -/

/-- One tipset of two blocks sharing the message `11`; both pools are indexed
within bounds and there is one list per block. -/
def wellFormedResponse : ValidatedResponse String Nat Nat :=
  { Tipsets := [{ Blocks := ["h0", "h1"] }]
    Messages := [some { Bls := [10, 11], BlsIncludes := [[0, 1], [1]]
                        Secpk := [20], SecpkIncludes := [[], [0]] }] }

/-- The second block refers to entry 2 of a `Bls` pool that has two entries. -/
def indexOutOfPoolResponse : ValidatedResponse String Nat Nat :=
  { Tipsets := [{ Blocks := ["h0", "h1"] }]
    Messages := [some { Bls := [10, 11], BlsIncludes := [[0, 1], [2]]
                        Secpk := [20], SecpkIncludes := [[], [0]] }] }

/-- Two blocks, but one list only in `BlsIncludes`. -/
def shortIncludesResponse : ValidatedResponse String Nat Nat :=
  { Tipsets := [{ Blocks := ["h0", "h1"] }]
    Messages := [some { Bls := [10, 11], BlsIncludes := [[0, 1]]
                        Secpk := [20], SecpkIncludes := [[], [0]] }] }

/-- Two blocks, but three lists in `BlsIncludes` and in `SecpkIncludes`; the
third lists hold indices outside the pools. -/
def longIncludesResponse : ValidatedResponse String Nat Nat :=
  { Tipsets := [{ Blocks := ["h0", "h1"] }]
    Messages := [some { Bls := [10, 11], BlsIncludes := [[0, 1], [1], [7]]
                        Secpk := [20], SecpkIncludes := [[], [0], [9]] }] }

/-- A tipset with blocks whose entry of `Messages` is nil. -/
def nilMessagesResponse : ValidatedResponse String Nat Nat :=
  { Tipsets := [{ Blocks := ["h0", "h1"] }], Messages := [none] }

/-- Two tipsets of one block each and three entries in `Messages`: the first
entry has two lists per scheme, the second of which belongs to no block (and
holds, for `Bls`, an index outside the pool); the third entry is nil and
belongs to no tipset. -/
def spareEntriesResponse : ValidatedResponse String Nat Nat :=
  { Tipsets := [{ Blocks := ["h0"] }, { Blocks := ["h1"] }]
    Messages := [some { Bls := [10], BlsIncludes := [[0, 0], [5]]
                        Secpk := [20, 21], SecpkIncludes := [[1], []] },
                 some { Bls := [], BlsIncludes := [[]], Secpk := [22], SecpkIncludes := [[0]] },
                 none] }

/-- The first tipset has a block and a nil entry in `Messages`; the block of the
second tipset refers to entry 0 of an empty `Bls` pool. -/
def nilBeforeIndexResponse : ValidatedResponse String Nat Nat :=
  { Tipsets := [{ Blocks := ["h0"] }, { Blocks := ["h1"] }]
    Messages := [none, some { Bls := [], BlsIncludes := [[0]]
                              Secpk := [], SecpkIncludes := [[]] }] }

/-! ## The inner loops -/

theorem index_eq_ok {α : Type} {xs : List α} {i : Nat} {x : α} (h : xs[i]? = some x) :
    index xs i = .ok x := by
  simp [index, h]

theorem index_eq_error {α : Type} {xs : List α} {i : Nat} (h : xs[i]? = none) :
    index xs i = .error (.indexOutOfRange i xs.length) := by
  simp [index, h]

theorem appendIncluded_ok {α : Type} (pool : List α) (ks : List Nat) (acc : List α)
    (h : ∀ k ∈ ks, k < pool.length) :
    appendIncluded pool ks acc = .ok (acc ++ resolve pool ks) := by
  induction ks generalizing acc with
  | nil => simp [appendIncluded, resolve]
  | cons k ks ih =>
    have hk : k < pool.length := h k (List.mem_cons_self _ _)
    have hget : pool[k]? = some pool[k] := List.getElem?_eq_getElem hk
    have hrest : ∀ j ∈ ks, j < pool.length := fun j hj => h j (List.mem_cons_of_mem _ hj)
    have hres : resolve pool (k :: ks) = pool[k] :: resolve pool ks := by
      simp [resolve, List.filterMap_cons, hget]
    rw [appendIncluded, index_eq_ok hget]
    simp only []
    rw [ih _ hrest, hres]
    simp

theorem appendIncluded_error {α : Type} (pool : List α) (ks : List Nat) (acc : List α)
    (h : ∃ k ∈ ks, pool.length ≤ k) :
    ∃ p, appendIncluded pool ks acc = .error p := by
  induction ks generalizing acc with
  | nil => simp at h
  | cons k ks ih =>
    rw [appendIncluded]
    by_cases hk : k < pool.length
    · rw [index_eq_ok (List.getElem?_eq_getElem hk)]
      simp only []
      apply ih
      obtain ⟨j, hj, hle⟩ := h
      rcases List.mem_cons.mp hj with rfl | hj
      · omega
      · exact ⟨j, hj, hle⟩
    · rw [index_eq_error (List.getElem?_eq_none (Nat.le_of_not_lt hk))]
      exact ⟨_, rfl⟩

theorem resolve_map_some {α : Type} (pool : List α) (ks : List Nat)
    (h : ∀ k ∈ ks, k < pool.length) :
    (resolve pool ks).map some = ks.map (fun k => pool[k]?) := by
  induction ks with
  | nil => simp [resolve]
  | cons k ks ih =>
    have hk : k < pool.length := h k (List.mem_cons_self _ _)
    have hget : pool[k]? = some pool[k] := List.getElem?_eq_getElem hk
    have hrest : ∀ j ∈ ks, j < pool.length := fun j hj => h j (List.mem_cons_of_mem _ hj)
    have hres : resolve pool (k :: ks) = pool[k] :: resolve pool ks := by
      simp [resolve, List.filterMap_cons, hget]
    rw [hres, List.map_cons, List.map_cons, ih hrest, hget]

theorem fullBlock_ok {H M S : Type} (m : CompactedMessages M S) (i : Nat) (b : H)
    (h : BlockOk m i) : fullBlock (some m) i b = .ok (expectedBlock m i b) := by
  obtain ⟨⟨l, hl, hlb⟩, ⟨r, hr, hrb⟩⟩ := h
  simp [fullBlock, deref, index_eq_ok hl, index_eq_ok hr, appendIncluded_ok _ _ _ hlb,
    appendIncluded_ok _ _ _ hrb, expectedBlock, hl, hr]

theorem fullBlock_error {H M S : Type} (m : CompactedMessages M S) (i : Nat) (b : H)
    (h : ¬ BlockOk m i) : ∃ p, fullBlock (H := H) (some m) i b = .error p := by
  unfold fullBlock
  simp only [deref]
  cases hl : m.BlsIncludes[i]? with
  | none => rw [index_eq_error hl]; exact ⟨_, rfl⟩
  | some l =>
    rw [index_eq_ok hl]
    simp only []
    by_cases hlb : ∀ k ∈ l, k < m.Bls.length
    · rw [appendIncluded_ok _ _ _ hlb]
      simp only []
      cases hr : m.SecpkIncludes[i]? with
      | none => rw [index_eq_error hr]; exact ⟨_, rfl⟩
      | some r =>
        rw [index_eq_ok hr]
        simp only []
        by_cases hrb : ∀ k ∈ r, k < m.Secpk.length
        · exact absurd ⟨⟨l, hl, hlb⟩, ⟨r, hr, hrb⟩⟩ h
        · have hex : ∃ k ∈ r, m.Secpk.length ≤ k := by
            by_contra hc
            exact hrb (fun k hk => by
              by_contra hlt
              exact hc ⟨k, hk, Nat.le_of_not_lt hlt⟩)
          obtain ⟨p, hp⟩ := appendIncluded_error m.Secpk r [] hex
          rw [hp]; exact ⟨_, rfl⟩
    · have hex : ∃ k ∈ l, m.Bls.length ≤ k := by
        by_contra hc
        exact hlb (fun k hk => by
          by_contra hlt
          exact hc ⟨k, hk, Nat.le_of_not_lt hlt⟩)
      obtain ⟨p, hp⟩ := appendIncluded_error m.Bls l [] hex
      rw [hp]; exact ⟨_, rfl⟩

theorem fullBlock_nil {H M S : Type} (i : Nat) (b : H) :
    fullBlock (H := H) (none : Option (CompactedMessages M S)) i b = .error .nilDereference := by
  simp [fullBlock, deref]

/-! ## The loop over the blocks of a tipset -/

theorem blocksLoop_ok {H M S : Type} (m : CompactedMessages M S) (bs : List H) (i : Nat)
    (acc : List (FullBlock H M S)) (h : ∀ j, j < bs.length → BlockOk m (i + j)) :
    blocksLoop (some m) bs i acc =
      .ok (acc ++ (bs.enumFrom i).map (fun p => expectedBlock m p.1 p.2)) := by
  induction bs generalizing i acc with
  | nil => simp [blocksLoop]
  | cons b bs ih =>
    have h0 : BlockOk m i := by simpa using h 0 (by simp)
    have hrest : ∀ j, j < bs.length → BlockOk m (i + 1 + j) := by
      intro j hj
      have := h (j + 1) (by simpa using hj)
      rwa [show i + (j + 1) = i + 1 + j by omega] at this
    rw [blocksLoop, fullBlock_ok m i b h0]
    simp only []
    rw [ih _ _ hrest]
    simp [List.enumFrom_cons]

theorem blocksLoop_error {H M S : Type} (m : CompactedMessages M S) (bs : List H) (i : Nat)
    (acc : List (FullBlock H M S)) (h : ∃ j, j < bs.length ∧ ¬ BlockOk m (i + j)) :
    ∃ p, blocksLoop (some m) bs i acc = .error p := by
  induction bs generalizing i acc with
  | nil => simp at h
  | cons b bs ih =>
    rw [blocksLoop]
    by_cases h0 : BlockOk m i
    · rw [fullBlock_ok m i b h0]
      simp only []
      apply ih
      obtain ⟨j, hj, hbad⟩ := h
      cases j with
      | zero => exact absurd h0 (by simpa using hbad)
      | succ j =>
        refine ⟨j, by simpa using hj, ?_⟩
        rwa [show i + 1 + j = i + (j + 1) by omega]
    · obtain ⟨p, hp⟩ := fullBlock_error m i b h0
      rw [hp]; exact ⟨_, rfl⟩

theorem blocksLoop_nil {H M S : Type} (bs : List H) (i : Nat) (acc : List (FullBlock H M S))
    (h : bs ≠ []) :
    blocksLoop (none : Option (CompactedMessages M S)) bs i acc = .error .nilDereference := by
  cases bs with
  | nil => exact absurd rfl h
  | cons b bs => simp [blocksLoop, fullBlock_nil]

/-! ## One tipset -/

theorem tipset_ok {H M S : Type} (messages : List (Option (CompactedMessages M S))) (t : Nat)
    (ts : TipSet H) (h : TipsetOk messages t ts) :
    ∃ msgs, index messages t = .ok msgs ∧
      blocksLoop msgs ts.Blocks 0 [] = .ok (expectedTipSet messages t ts).Blocks := by
  obtain ⟨msgs, hm, hok⟩ := h
  refine ⟨msgs, index_eq_ok hm, ?_⟩
  rcases hok with hnil | ⟨m, rfl, hb⟩
  · cases msgs <;> simp [hnil, blocksLoop, expectedTipSet, expectedBlocks, hm]
  · rw [blocksLoop_ok m ts.Blocks 0 [] (by simpa using hb)]
    simp [expectedTipSet, expectedBlocks, hm]

theorem tipset_error {H M S : Type} (messages : List (Option (CompactedMessages M S))) (t : Nat)
    (ts : TipSet H) (h : ¬ TipsetOk messages t ts) :
    (∃ p, index messages t = .error p) ∨
      ∃ msgs p, index messages t = .ok msgs ∧
        blocksLoop (H := H) msgs ts.Blocks 0 [] = .error p := by
  cases hm : messages[t]? with
  | none => exact Or.inl ⟨_, index_eq_error hm⟩
  | some msgs =>
    refine Or.inr ?_
    have hne : ts.Blocks ≠ [] := fun hnil => h ⟨msgs, hm, Or.inl hnil⟩
    cases msgs with
    | none => exact ⟨none, _, index_eq_ok hm, blocksLoop_nil ts.Blocks 0 [] hne⟩
    | some m =>
      have hbad : ∃ j, j < ts.Blocks.length ∧ ¬ BlockOk m (0 + j) := by
        by_contra hc
        refine h ⟨some m, hm, Or.inr ⟨m, rfl, fun i hi => ?_⟩⟩
        by_contra hno
        exact hc ⟨i, hi, by simpa using hno⟩
      obtain ⟨p, hp⟩ := blocksLoop_error m ts.Blocks 0 [] hbad
      exact ⟨some m, p, index_eq_ok hm, hp⟩

/-! ## The loop over the tipsets -/

theorem tipsetsLoop_ok {H M S : Type} (messages : List (Option (CompactedMessages M S)))
    (tss : List (TipSet H)) (t : Nat) (pre : List (Option (FullTipSet H M S)))
    (hpre : pre.length = t)
    (h : ∀ j ts, tss[j]? = some ts → TipsetOk messages (t + j) ts) :
    tipsetsLoop messages tss t (pre ++ List.replicate tss.length none) =
      .ok (pre ++ (tss.enumFrom t).map (fun p => some (expectedTipSet messages p.1 p.2))) := by
  induction tss generalizing t pre with
  | nil => simp [tipsetsLoop]
  | cons ts tss ih =>
    have h0 : TipsetOk messages t ts := by simpa using h 0 ts (by simp)
    have hrest : ∀ j ts1, tss[j]? = some ts1 → TipsetOk messages (t + 1 + j) ts1 := by
      intro j ts1 hj
      have := h (j + 1) ts1 (by simpa using hj)
      rwa [show t + (j + 1) = t + 1 + j by omega] at this
    obtain ⟨msgs, hidx, hloop⟩ := tipset_ok messages t ts h0
    rw [tipsetsLoop, hidx]
    simp only []
    rw [hloop]
    simp only []
    have hset : (pre ++ List.replicate (ts :: tss).length none).set t
        (some ({ Blocks := (expectedTipSet messages t ts).Blocks } : FullTipSet H M S)) =
        (pre ++ [some (expectedTipSet messages t ts)]) ++ List.replicate tss.length none := by
      subst hpre
      simp [List.replicate_succ, List.set_append]
    rw [hset, ih (t + 1) _ (by simp [hpre]) hrest]
    simp [List.enumFrom_cons]

theorem tipsetsLoop_error {H M S : Type} (messages : List (Option (CompactedMessages M S)))
    (tss : List (TipSet H)) (t : Nat) (ftsList : List (Option (FullTipSet H M S)))
    (h : ∃ j ts, tss[j]? = some ts ∧ ¬ TipsetOk messages (t + j) ts) :
    ∃ p, tipsetsLoop messages tss t ftsList = .error p := by
  induction tss generalizing t ftsList with
  | nil => simp at h
  | cons ts tss ih =>
    rw [tipsetsLoop]
    by_cases h0 : TipsetOk messages t ts
    · obtain ⟨msgs, hidx, hloop⟩ := tipset_ok messages t ts h0
      rw [hidx]
      simp only []
      rw [hloop]
      simp only []
      apply ih
      obtain ⟨j, ts1, hj, hbad⟩ := h
      cases j with
      | zero =>
        simp at hj
        subst hj
        exact absurd h0 (by simpa using hbad)
      | succ j =>
        refine ⟨j, ts1, by simpa using hj, ?_⟩
        rwa [show t + 1 + j = t + (j + 1) by omega]
    · rcases tipset_error messages t ts h0 with ⟨p, hp⟩ | ⟨msgs, p, hidx, hp⟩
      · rw [hp]; exact ⟨_, rfl⟩
      · rw [hidx]
        simp only []
        rw [hp]; exact ⟨_, rfl⟩

/-! ## The whole function -/

/-- Every tipset of the response can be decompressed. -/
theorem toFullTipSets_ok {H M S : Type} (res : ValidatedResponse H M S)
    (hne : res.Tipsets ≠ [])
    (h : ∀ t ts, res.Tipsets[t]? = some ts → TipsetOk res.Messages t ts) :
    res.toFullTipSets = .ok (some ((res.Tipsets.enumFrom 0).map
      (fun p => some (expectedTipSet res.Messages p.1 p.2)))) := by
  have hlen : ¬ res.Tipsets.length = 0 := by
    simpa [List.length_eq_zero] using hne
  have hloop := tipsetsLoop_ok res.Messages res.Tipsets 0 [] rfl (by simpa using h)
  simp only [List.nil_append] at hloop
  simp [ValidatedResponse.toFullTipSets, hlen, hloop]

/-- Some tipset of the response cannot be decompressed. -/
theorem toFullTipSets_error {H M S : Type} (res : ValidatedResponse H M S)
    (h : ∃ t ts, res.Tipsets[t]? = some ts ∧ ¬ TipsetOk res.Messages t ts) :
    ∃ p, res.toFullTipSets = .error p := by
  have hlen : ¬ res.Tipsets.length = 0 := by
    obtain ⟨t, ts, ht, _⟩ := h
    intro h0
    rw [List.length_eq_zero] at h0
    simp [h0] at ht
  obtain ⟨p, hp⟩ := tipsetsLoop_error res.Messages res.Tipsets 0
    (List.replicate res.Tipsets.length none) (by simpa using h)
  exact ⟨p, by simp [ValidatedResponse.toFullTipSets, hlen, hp]⟩

/-! ## Consequences for well-formed and malformed responses -/

theorem getElem?_enumFrom_map {α β : Type} (l : List α) (f : Nat × α → β) (i : Nat) :
    ((l.enumFrom 0).map f)[i]? = (l[i]?).map (fun x => f (i, x)) := by
  simp [List.getElem?_map, List.getElem?_enumFrom]
  cases l[i]? <;> simp

theorem includesCover_tipsetOk {H M S : Type} (res : ValidatedResponse H M S)
    (h : IncludesCover res) (t : Nat) (ts : TipSet H) (hts : res.Tipsets[t]? = some ts) :
    TipsetOk res.Messages t ts := by
  obtain ⟨m, hm, hbl, hsl, hb, hs⟩ := h t ts hts
  refine ⟨some m, hm, Or.inr ⟨m, rfl, fun i hi => ⟨?_, ?_⟩⟩⟩
  · have hi1 : i < m.BlsIncludes.length := by omega
    exact ⟨_, List.getElem?_eq_getElem hi1, hb i _ hi (List.getElem?_eq_getElem hi1)⟩
  · have hi1 : i < m.SecpkIncludes.length := by omega
    exact ⟨_, List.getElem?_eq_getElem hi1, hs i _ hi (List.getElem?_eq_getElem hi1)⟩

theorem wellFormed_includesCover {H M S : Type} (res : ValidatedResponse H M S)
    (h : WellFormed res) : IncludesCover res := by
  intro t ts hts
  obtain ⟨m, hm, hbl, hsl, hb, hs⟩ := h t ts hts
  refine ⟨m, hm, by omega, by omega, ?_, ?_⟩
  · intro i l _ hl
    exact hb l (List.getElem?_mem hl)
  · intro i l _ hl
    exact hs l (List.getElem?_mem hl)

theorem tipsets_ne_nil {H : Type} {tss : List (TipSet H)} {t : Nat} {ts : TipSet H}
    (h : tss[t]? = some ts) : tss ≠ [] := by
  intro h0
  simp [h0] at h

/-! ## The encoder -/

theorem resolve_cons {α : Type} (pool : List α) (k : Nat) (ks : List Nat) (x : α)
    (h : pool[k]? = some x) : resolve pool (k :: ks) = x :: resolve pool ks := by
  simp [resolve, List.filterMap_cons, h]

theorem insertMessage_spec {α : Type} [DecidableEq α] (pool : List α) (m : α) :
    ∃ ext, (insertMessage pool m).1 = pool ++ ext ∧
      (insertMessage pool m).1[(insertMessage pool m).2]? = some m := by
  unfold insertMessage
  by_cases h : m ∈ pool
  · refine ⟨[], by simp [h], ?_⟩
    simp only [h, if_true]
    have hlt : pool.indexOf m < pool.length := List.indexOf_lt_length.mpr h
    rw [List.getElem?_eq_getElem hlt, List.getElem_indexOf hlt]
  · exact ⟨[m], by simp [h], by simp [h]⟩

theorem getElem?_append_some {α : Type} (l ext : List α) (k : Nat) (x : α)
    (h : l[k]? = some x) : (l ++ ext)[k]? = some x := by
  have hlt : k < l.length := by
    by_contra hc
    rw [List.getElem?_eq_none (Nat.le_of_not_lt hc)] at h
    cases h
  rw [List.getElem?_append_left hlt, h]

theorem lt_length_of_getElem? {α : Type} (l : List α) (k : Nat) (x : α)
    (h : l[k]? = some x) : k < l.length := by
  by_contra hc
  rw [List.getElem?_eq_none (Nat.le_of_not_lt hc)] at h
  cases h

theorem compactList_spec {α : Type} [DecidableEq α] (pool msgs : List α) :
    ∃ ext, (compactList pool msgs).1 = pool ++ ext ∧
      (∀ k ∈ (compactList pool msgs).2, k < (compactList pool msgs).1.length) ∧
      ∀ tail, resolve ((compactList pool msgs).1 ++ tail) (compactList pool msgs).2 = msgs := by
  induction msgs generalizing pool with
  | nil => exact ⟨[], by simp [compactList], by simp [compactList], by simp [compactList, resolve]⟩
  | cons m rest ih =>
    obtain ⟨ext0, hext0, hget⟩ := insertMessage_spec pool m
    obtain ⟨ext1, hext1, hlt, hres⟩ := ih (insertMessage pool m).1
    have hk : (insertMessage pool m).2 < (compactList (insertMessage pool m).1 rest).1.length := by
      have := lt_length_of_getElem? _ _ _ hget
      rw [hext1, List.length_append]
      omega
    refine ⟨ext0 ++ ext1, ?_, ?_, ?_⟩
    · simp only [compactList]
      rw [hext1, hext0, List.append_assoc]
    · simp only [compactList]
      intro k hmem
      rcases List.mem_cons.mp hmem with rfl | hmem
      · exact hk
      · exact hlt k hmem
    · intro tail
      simp only [compactList]
      have hsome : ((compactList (insertMessage pool m).1 rest).1 ++ tail)[(insertMessage pool m).2]?
          = some m := by
        rw [hext1, List.append_assoc]
        exact getElem?_append_some _ _ _ _ hget
      rw [resolve_cons _ _ _ _ hsome, hres tail]

theorem compactLists_spec {α : Type} [DecidableEq α] (pool : List α) (lists : List (List α)) :
    ∃ ext, (compactLists pool lists).1 = pool ++ ext ∧
      (compactLists pool lists).2.length = lists.length ∧
      ∀ (tail : List α) (i : Nat) (l : List Nat), (compactLists pool lists).2[i]? = some l →
        (∀ k ∈ l, k < (compactLists pool lists).1.length) ∧
        lists[i]? = some (resolve ((compactLists pool lists).1 ++ tail) l) := by
  induction lists generalizing pool with
  | nil => exact ⟨[], by simp [compactLists], by simp [compactLists], by simp [compactLists]⟩
  | cons msgs rest ih =>
    obtain ⟨ext0, hext0, hlt0, hres0⟩ := compactList_spec pool msgs
    obtain ⟨ext1, hext1, hlen, hrest⟩ := ih (compactList pool msgs).1
    refine ⟨ext0 ++ ext1, ?_, ?_, ?_⟩
    · simp only [compactLists]
      rw [hext1, hext0, List.append_assoc]
    · simp only [compactLists, List.length_cons, hlen]
    · intro tail i l hl
      simp only [compactLists] at hl ⊢
      cases i with
      | zero =>
        simp only [List.getElem?_cons_zero, Option.some.injEq] at hl
        subst hl
        constructor
        · intro k hk
          have := hlt0 k hk
          rw [hext1, List.length_append]
          omega
        · rw [List.getElem?_cons_zero, hext1, List.append_assoc, hres0]
      | succ i =>
        simp only [List.getElem?_cons_succ] at hl ⊢
        exact hrest tail i l hl

theorem compactMessages_blockOk {H M S : Type} [DecidableEq M] [DecidableEq S]
    (fts : FullTipSet H M S) (i : Nat) (hi : i < fts.Blocks.length) :
    BlockOk (compactMessages fts) i := by
  obtain ⟨_, _, hlenB, hB⟩ := compactLists_spec [] (fts.Blocks.map (fun fb => fb.BlsMessages))
  obtain ⟨_, _, hlenS, hS⟩ := compactLists_spec [] (fts.Blocks.map (fun fb => fb.SecpkMessages))
  rw [List.length_map] at hlenB hlenS
  constructor
  · have hlt : i < (compactMessages fts).BlsIncludes.length := by
      simp only [compactMessages]; omega
    exact ⟨_, List.getElem?_eq_getElem hlt, (hB [] i _ (List.getElem?_eq_getElem hlt)).1⟩
  · have hlt : i < (compactMessages fts).SecpkIncludes.length := by
      simp only [compactMessages]; omega
    exact ⟨_, List.getElem?_eq_getElem hlt, (hS [] i _ (List.getElem?_eq_getElem hlt)).1⟩

theorem compactMessages_expectedBlock {H M S : Type} [DecidableEq M] [DecidableEq S]
    (fts : FullTipSet H M S) (i : Nat) (fb : FullBlock H M S) (hfb : fts.Blocks[i]? = some fb) :
    expectedBlock (compactMessages fts) i fb.Header = fb := by
  have hi : i < fts.Blocks.length := lt_length_of_getElem? _ _ _ hfb
  obtain ⟨⟨l, hl, _⟩, ⟨r, hr, _⟩⟩ := compactMessages_blockOk fts i hi
  obtain ⟨_, _, _, hB⟩ := compactLists_spec [] (fts.Blocks.map (fun fb => fb.BlsMessages))
  obtain ⟨_, _, _, hS⟩ := compactLists_spec [] (fts.Blocks.map (fun fb => fb.SecpkMessages))
  have h1 := (hB [] i l hl).2
  have h2 := (hS [] i r hr).2
  simp only [List.getElem?_map, hfb, Option.map_some', Option.some.injEq,
    List.append_nil] at h1 h2
  cases fb with
  | mk hd bls secpk =>
    simp only [expectedBlock, hl, hr, Option.getD_some]
    simp only at h1 h2
    rw [h1, h2]
    rfl

theorem compactChain_tipsetOk {H M S : Type} [DecidableEq M] [DecidableEq S]
    (chain : List (FullTipSet H M S)) (t : Nat) (ts : TipSet H)
    (hts : (compactChain chain).Tipsets[t]? = some ts) :
    TipsetOk (compactChain chain).Messages t ts := by
  simp only [compactChain, List.getElem?_map] at hts ⊢
  cases hc : chain[t]? with
  | none => simp [hc] at hts
  | some fts =>
    simp only [hc, Option.map_some', Option.some.injEq] at hts
    subst hts
    refine ⟨some (compactMessages fts), by simp [hc], Or.inr ⟨_, rfl, fun i hi => ?_⟩⟩
    exact compactMessages_blockOk fts i (by simpa using hi)

theorem compactChain_expectedTipSet {H M S : Type} [DecidableEq M] [DecidableEq S]
    (chain : List (FullTipSet H M S)) (t : Nat) (fts : FullTipSet H M S)
    (hc : chain[t]? = some fts) :
    expectedTipSet (compactChain chain).Messages t
      { Blocks := fts.Blocks.map (fun fb => fb.Header) } = fts := by
  cases fts with
  | mk blocks =>
    simp only [expectedTipSet, compactChain, List.getElem?_map, hc, Option.map_some',
      Option.getD_some, expectedBlocks]
    congr 1
    apply List.ext_getElem?
    intro i
    rw [getElem?_enumFrom_map, List.getElem?_map]
    cases hb : blocks[i]? with
    | none => simp
    | some fb =>
      simp only [Option.map_some']
      exact congrArg some (compactMessages_expectedBlock ⟨blocks⟩ i fb hb)

/-! ## Which panic stops the function -/

theorem appendIncluded_error_index {α : Type} (pool : List α) (ks : List Nat) (acc : List α)
    (h : ∃ k ∈ ks, pool.length ≤ k) :
    ∃ k, k ∈ ks ∧ pool.length ≤ k ∧
      appendIncluded pool ks acc = .error (.indexOutOfRange k pool.length) := by
  induction ks generalizing acc with
  | nil => simp at h
  | cons k ks ih =>
    rw [appendIncluded]
    by_cases hk : k < pool.length
    · rw [index_eq_ok (List.getElem?_eq_getElem hk)]
      simp only []
      have hrest : ∃ j ∈ ks, pool.length ≤ j := by
        obtain ⟨j, hj, hle⟩ := h
        rcases List.mem_cons.mp hj with rfl | hj
        · omega
        · exact ⟨j, hj, hle⟩
      obtain ⟨j, hj, hle, heq⟩ := ih _ hrest
      exact ⟨j, List.mem_cons_of_mem _ hj, hle, heq⟩
    · rw [index_eq_error (List.getElem?_eq_none (Nat.le_of_not_lt hk))]
      exact ⟨k, List.mem_cons_self _ _, Nat.le_of_not_lt hk, rfl⟩

theorem exists_out_of_pool {pool : Nat} {l : List Nat} (h : ¬ ∀ k ∈ l, k < pool) :
    ∃ k ∈ l, pool ≤ k := by
  by_contra hc
  exact h (fun k hk => by
    by_contra hlt
    exact hc ⟨k, hk, Nat.le_of_not_lt hlt⟩)

theorem fullBlock_poolPanic {H M S : Type} (m : CompactedMessages M S) (i : Nat) (b : H)
    (hl : i < m.BlsIncludes.length) (hr : i < m.SecpkIncludes.length) (h : ¬ BlockOk m i) :
    ∃ p, fullBlock (H := H) (some m) i b = .error p ∧ BlockPoolPanic m i p := by
  have hbls : m.BlsIncludes[i]? = some m.BlsIncludes[i] := List.getElem?_eq_getElem hl
  have hsecpk : m.SecpkIncludes[i]? = some m.SecpkIncludes[i] := List.getElem?_eq_getElem hr
  unfold fullBlock
  simp only [deref]
  rw [index_eq_ok hbls]
  simp only []
  by_cases hlb : ∀ k ∈ m.BlsIncludes[i], k < m.Bls.length
  · rw [appendIncluded_ok _ _ _ hlb]
    simp only []
    rw [index_eq_ok hsecpk]
    simp only []
    have hrb : ¬ ∀ k ∈ m.SecpkIncludes[i], k < m.Secpk.length :=
      fun hrb => h ⟨⟨_, hbls, hlb⟩, ⟨_, hsecpk, hrb⟩⟩
    obtain ⟨k, hk, hle, heq⟩ :=
      appendIncluded_error_index m.Secpk m.SecpkIncludes[i] [] (exists_out_of_pool hrb)
    rw [heq]
    exact ⟨_, rfl, _, k, hk, Or.inr ⟨hsecpk, hle, rfl⟩⟩
  · obtain ⟨k, hk, hle, heq⟩ :=
      appendIncluded_error_index m.Bls m.BlsIncludes[i] [] (exists_out_of_pool hlb)
    rw [heq]
    exact ⟨_, rfl, _, k, hk, Or.inl ⟨hbls, hle, rfl⟩⟩

theorem blocksLoop_poolPanic {H M S : Type} (m : CompactedMessages M S) (bs : List H)
    (i : Nat) (acc : List (FullBlock H M S))
    (hlen : i + bs.length ≤ m.BlsIncludes.length ∧ i + bs.length ≤ m.SecpkIncludes.length)
    (h : ∃ j, j < bs.length ∧ ¬ BlockOk m (i + j)) :
    ∃ p j, j < bs.length ∧ blocksLoop (some m) bs i acc = .error p ∧
      BlockPoolPanic m (i + j) p := by
  induction bs generalizing i acc with
  | nil => simp at h
  | cons b bs ih =>
    simp only [List.length_cons] at hlen
    rw [blocksLoop]
    by_cases h0 : BlockOk m i
    · rw [fullBlock_ok m i b h0]
      simp only []
      have hrest : ∃ j, j < bs.length ∧ ¬ BlockOk m (i + 1 + j) := by
        obtain ⟨j, hj, hbad⟩ := h
        cases j with
        | zero => exact absurd h0 (by simpa using hbad)
        | succ j =>
          refine ⟨j, by simpa using hj, ?_⟩
          rwa [show i + 1 + j = i + (j + 1) by omega]
      obtain ⟨p, j, hj, heq, hp⟩ := ih (i + 1) _ ⟨by omega, by omega⟩ hrest
      refine ⟨p, j + 1, by simpa using hj, heq, ?_⟩
      rwa [show i + (j + 1) = i + 1 + j by omega]
    · obtain ⟨p, hp, hpanic⟩ := fullBlock_poolPanic m i b (by omega) (by omega) h0
      rw [hp]
      exact ⟨p, 0, by simp, rfl, by simpa using hpanic⟩

theorem tipsetsLoop_poolPanic {H M S : Type} (messages : List (Option (CompactedMessages M S)))
    (tss : List (TipSet H)) (t : Nat) (ftsList : List (Option (FullTipSet H M S)))
    (hpresent : ∀ (j : Nat) (ts : TipSet H), tss[j]? = some ts →
      ∃ m : CompactedMessages M S, messages[t + j]? = some (some m) ∧
        ts.Blocks.length ≤ m.BlsIncludes.length ∧ ts.Blocks.length ≤ m.SecpkIncludes.length)
    (h : ∃ j ts, tss[j]? = some ts ∧ ¬ TipsetOk messages (t + j) ts) :
    ∃ (p : Panic) (j : Nat) (ts : TipSet H) (m : CompactedMessages M S) (i : Nat),
      tss[j]? = some ts ∧ messages[t + j]? = some (some m) ∧ i < ts.Blocks.length ∧
      BlockPoolPanic m i p ∧ tipsetsLoop messages tss t ftsList = .error p := by
  induction tss generalizing t ftsList with
  | nil => simp at h
  | cons ts tss ih =>
    rw [tipsetsLoop]
    by_cases h0 : TipsetOk messages t ts
    · obtain ⟨msgs, hidx, hloop⟩ := tipset_ok messages t ts h0
      rw [hidx]
      simp only []
      rw [hloop]
      simp only []
      have hrest : ∃ j ts1, tss[j]? = some ts1 ∧ ¬ TipsetOk messages (t + 1 + j) ts1 := by
        obtain ⟨j, ts1, hj, hbad⟩ := h
        cases j with
        | zero =>
          simp at hj
          subst hj
          exact absurd h0 (by simpa using hbad)
        | succ j =>
          refine ⟨j, ts1, by simpa using hj, ?_⟩
          rwa [show t + 1 + j = t + (j + 1) by omega]
      have hpresent1 : ∀ (j : Nat) (ts1 : TipSet H), tss[j]? = some ts1 →
          ∃ m : CompactedMessages M S, messages[t + 1 + j]? = some (some m) ∧
            ts1.Blocks.length ≤ m.BlsIncludes.length ∧
            ts1.Blocks.length ≤ m.SecpkIncludes.length := by
        intro j ts1 hj
        have := hpresent (j + 1) ts1 (by simpa using hj)
        rwa [show t + (j + 1) = t + 1 + j by omega] at this
      obtain ⟨p, j, ts1, m, i, hj, hm, hi, hpanic, heq⟩ := ih (t + 1) _ hpresent1 hrest
      refine ⟨p, j + 1, ts1, m, i, by simpa using hj, ?_, hi, hpanic, heq⟩
      rwa [show t + (j + 1) = t + 1 + j by omega]
    · obtain ⟨m, hm, hbl, hsl⟩ := hpresent 0 ts (by simp)
      simp only [Nat.add_zero] at hm
      rw [index_eq_ok hm]
      simp only []
      have hbad : ∃ j, j < ts.Blocks.length ∧ ¬ BlockOk m (0 + j) := by
        by_contra hc
        refine h0 ⟨some m, hm, Or.inr ⟨m, rfl, fun i hi => ?_⟩⟩
        by_contra hno
        exact hc ⟨i, hi, by simpa using hno⟩
      obtain ⟨p, j, hj, heq, hpanic⟩ :=
        blocksLoop_poolPanic m ts.Blocks 0 [] ⟨by omega, by omega⟩ hbad
      rw [heq]
      refine ⟨p, 0, ts, m, j, by simp, by simpa using hm, hj, ?_, rfl⟩
      simpa using hpanic

theorem indexOutOfPool_not_tipsetOk {H M S : Type} (res : ValidatedResponse H M S)
    (h : IndexOutOfPool res) :
    ∃ t ts, res.Tipsets[t]? = some ts ∧ ¬ TipsetOk res.Messages t ts := by
  obtain ⟨t, ts, m, i, l, k, hts, hm, hi, hk, hbad⟩ := h
  refine ⟨t, ts, hts, ?_⟩
  rintro ⟨msgs, hmsgs, hok⟩
  rw [hm] at hmsgs
  cases hmsgs
  rcases hok with hnil | ⟨m1, hm1, hblocks⟩
  · simp [hnil] at hi
  · cases hm1
    obtain ⟨⟨l1, hl1, hb1⟩, ⟨l2, hl2, hb2⟩⟩ := hblocks i hi
    rcases hbad with ⟨hl, hle⟩ | ⟨hl, hle⟩
    · rw [hl] at hl1
      cases hl1
      exact absurd (hb1 k hk) (by omega)
    · rw [hl] at hl2
      cases hl2
      exact absurd (hb2 k hk) (by omega)

theorem toFullTipSets_poolPanic {H M S : Type} (res : ValidatedResponse H M S)
    (hpresent : ListsPresent res)
    (h : ∃ t ts, res.Tipsets[t]? = some ts ∧ ¬ TipsetOk res.Messages t ts) :
    ∃ p, res.toFullTipSets = .error p ∧ PoolPanic res p := by
  have hlen : ¬ res.Tipsets.length = 0 := by
    obtain ⟨t, ts, ht, _⟩ := h
    intro h0
    rw [List.length_eq_zero] at h0
    simp [h0] at ht
  obtain ⟨p, j, ts, m, i, hj, hm, hi, hpanic, heq⟩ :=
    tipsetsLoop_poolPanic res.Messages res.Tipsets 0
      (List.replicate res.Tipsets.length none) (by simpa using hpresent) (by simpa using h)
  refine ⟨p, by simp [ValidatedResponse.toFullTipSets, hlen, heq], j, ts, m, i, hj, ?_, hi, hpanic⟩
  simpa using hm

/-! ## Claims about `toFullTipSets` -/

/-- C1: on a well-formed response `toFullTipSets` returns, and in its result the
block `i` of tipset `t` has the header of block `i` of tipset `t`, as bls
messages exactly the entries `Bls[k]` for `k` ranging over `BlsIncludes[i]` in
list order, and as secpk messages exactly the entries `Secpk[k]` for `k` ranging
over `SecpkIncludes[i]` in list order. -/
theorem toFullTipSets_wellFormed {H M S : Type} (res : ValidatedResponse H M S)
    (hwf : WellFormed res) :
    ∃ out, res.toFullTipSets = .ok out ∧
      ∀ (t : Nat) (ts : TipSet H) (m : CompactedMessages M S) (i : Nat) (b : H)
          (bls secpk : List Nat), res.Tipsets[t]? = some ts →
        res.Messages[t]? = some (some m) → ts.Blocks[i]? = some b →
        m.BlsIncludes[i]? = some bls → m.SecpkIncludes[i]? = some secpk →
        ∃ (ftsList : List (Option (FullTipSet H M S))) (fts : FullTipSet H M S)
            (fb : FullBlock H M S), out = some ftsList ∧ ftsList[t]? = some (some fts) ∧
          fts.Blocks[i]? = some fb ∧ fb.Header = b ∧
          fb.BlsMessages.map some = bls.map (fun k => m.Bls[k]?) ∧
          fb.SecpkMessages.map some = secpk.map (fun k => m.Secpk[k]?) := by
  by_cases hne : res.Tipsets = []
  · refine ⟨none, by simp [ValidatedResponse.toFullTipSets, hne], ?_⟩
    intro t ts m i b bls secpk hts
    simp [hne] at hts
  · refine ⟨_, toFullTipSets_ok res hne
      (includesCover_tipsetOk res (wellFormed_includesCover res hwf)), ?_⟩
    intro t ts m i b bls secpk hts hm hb hbls hsecpk
    obtain ⟨m1, hm1, _, _, hbound, hsbound⟩ := hwf t ts hts
    have hmm : m1 = m := by
      rw [hm] at hm1
      exact (Option.some.inj (Option.some.inj hm1)).symm
    subst hmm
    refine ⟨_, expectedTipSet res.Messages t ts, expectedBlock m1 i b, rfl, ?_, ?_, rfl, ?_, ?_⟩
    · simp [getElem?_enumFrom_map, hts]
    · simp [expectedTipSet, expectedBlocks, hm, getElem?_enumFrom_map, hb]
    · simp only [expectedBlock, hbls, Option.getD_some]
      exact resolve_map_some _ _ (hbound bls (List.getElem?_mem hbls))
    · simp only [expectedBlock, hsecpk, Option.getD_some]
      exact resolve_map_some _ _ (hsbound secpk (List.getElem?_mem hsecpk))

/-- C1 (witness): `wellFormedResponse` is well formed. -/
theorem toFullTipSets_wellFormed_witness :
    WellFormed wellFormedResponse ∧
      ∃ out, wellFormedResponse.toFullTipSets = .ok out ∧
        ∀ (t : Nat) (ts : TipSet String) (m : CompactedMessages Nat Nat) (i : Nat) (b : String)
          (bls secpk : List Nat), wellFormedResponse.Tipsets[t]? = some ts →
        wellFormedResponse.Messages[t]? = some (some m) → ts.Blocks[i]? = some b →
        m.BlsIncludes[i]? = some bls → m.SecpkIncludes[i]? = some secpk →
        ∃ (ftsList : List (Option (FullTipSet String Nat Nat))) (fts : FullTipSet String Nat Nat)
            (fb : FullBlock String Nat Nat), out = some ftsList ∧
          ftsList[t]? = some (some fts) ∧
          fts.Blocks[i]? = some fb ∧ fb.Header = b ∧
          fb.BlsMessages.map some = bls.map (fun k => m.Bls[k]?) ∧
          fb.SecpkMessages.map some = secpk.map (fun k => m.Secpk[k]?) :=
  have h : WellFormed wellFormedResponse := by
    intro t ts hts
    cases t with
    | succ t => simp [wellFormedResponse] at hts
    | zero =>
      cases hts
      refine ⟨_, rfl, by decide, by decide, ?_, ?_⟩
      · intro l hl k hk
        simp at hl
        rcases hl with rfl | rfl <;> simp at hk ⊢ <;> omega
      · intro l hl k hk
        simp at hl
        rcases hl with rfl | rfl <;> simp at hk ⊢
        omega
  ⟨h, toFullTipSets_wellFormed wellFormedResponse h⟩

/-- C2 (counterexample): the second block of `indexOutOfPoolResponse` uses index 2
of the pool `Bls`, which has length 2, and `toFullTipSets` panics with
`index out of range [2] with length 2`: it does panic, and it reports no decode
error. -/
theorem toFullTipSets_index_panics :
    IndexOutOfPool indexOutOfPoolResponse ∧
      indexOutOfPoolResponse.toFullTipSets = .error (.indexOutOfRange 2 2) :=
  ⟨⟨0, _, _, 1, [2], 2, rfl, rfl, by decide, by simp, Or.inl ⟨rfl, by decide⟩⟩, rfl⟩

/-- C2 (amended): when an inclusion index used by a block is greater than or
equal to the length of its pool, `toFullTipSets` returns no result: it stops
with a run-time panic. When moreover every tipset has a non-nil entry in
`Messages` with at least one list per block in `BlsIncludes` and in
`SecpkIncludes`, that panic is the bounds check of a pool access:
`index out of range [k] with length n` for an inclusion index `k` of a block
and the length `n ≤ k` of its pool. -/
theorem toFullTipSets_indexOutOfPool {H M S : Type} (res : ValidatedResponse H M S)
    (h : IndexOutOfPool res) :
    (∃ p, res.toFullTipSets = .error p) ∧
      (ListsPresent res → ∃ p, res.toFullTipSets = .error p ∧ PoolPanic res p) :=
  ⟨toFullTipSets_error res (indexOutOfPool_not_tipsetOk res h),
    fun hpresent => toFullTipSets_poolPanic res hpresent (indexOutOfPool_not_tipsetOk res h)⟩

/-- C2 (witness): `indexOutOfPoolResponse` has an index outside its pool and all
its lists, and stops with the bounds check of the pool; `nilBeforeIndexResponse`
has an index outside its pool too, and stops before it with a nil dereference. -/
theorem toFullTipSets_indexOutOfPool_witness :
    (IndexOutOfPool indexOutOfPoolResponse ∧ ListsPresent indexOutOfPoolResponse ∧
        ∃ p, indexOutOfPoolResponse.toFullTipSets = .error p ∧
          PoolPanic indexOutOfPoolResponse p) ∧
      (IndexOutOfPool nilBeforeIndexResponse ∧
        (∃ p, nilBeforeIndexResponse.toFullTipSets = .error p) ∧
        nilBeforeIndexResponse.toFullTipSets = .error .nilDereference) :=
  have h : IndexOutOfPool indexOutOfPoolResponse :=
    ⟨0, _, _, 1, [2], 2, rfl, rfl, by decide, by simp, Or.inl ⟨rfl, by decide⟩⟩
  have hpresent : ListsPresent indexOutOfPoolResponse := by
    intro t ts hts
    match t, hts with
    | 0, hts =>
      cases hts
      exact ⟨_, rfl, by decide, by decide⟩
    | t + 1, hts => simp [indexOutOfPoolResponse] at hts
  have hnil : IndexOutOfPool nilBeforeIndexResponse :=
    ⟨1, _, _, 0, [0], 0, rfl, rfl, by decide, by simp, Or.inl ⟨rfl, by decide⟩⟩
  ⟨⟨h, hpresent, (toFullTipSets_indexOutOfPool indexOutOfPoolResponse h).2 hpresent⟩,
    ⟨hnil, (toFullTipSets_indexOutOfPool nilBeforeIndexResponse hnil).1, rfl⟩⟩

/-- C3 (counterexample): `longIncludesResponse` has three lists in `BlsIncludes`
and in `SecpkIncludes` for a tipset of two blocks, and `toFullTipSets` returns
a chain: the lists beyond the blocks are ignored. -/
theorem toFullTipSets_long_includes_returns :
    longIncludesResponse.Tipsets.map (fun ts => ts.Blocks.length) = [2] ∧
      longIncludesResponse.Messages.map
        (fun o => o.map (fun m => (m.BlsIncludes.length, m.SecpkIncludes.length))) =
        [some (3, 3)] ∧
      longIncludesResponse.toFullTipSets =
        .ok (some [some { Blocks := [
          { Header := "h0", BlsMessages := [10, 11], SecpkMessages := [] },
          { Header := "h1", BlsMessages := [11], SecpkMessages := [20] }] }]) :=
  ⟨rfl, rfl, rfl⟩

/-- C3 (amended): a tipset with fewer lists in `BlsIncludes` or in
`SecpkIncludes` than it has blocks makes `toFullTipSets` stop with a run-time
panic, without a result; lists beyond the number of blocks are not an error:
with at least one list per block, and the indices of those lists inside their
pools, `toFullTipSets` returns a result. -/
theorem toFullTipSets_includes_length {H M S : Type} (res : ValidatedResponse H M S) :
    (IncludesTooShort res → ∃ p, res.toFullTipSets = .error p) ∧
      (IncludesCover res → ∃ out, res.toFullTipSets = .ok out) := by
  constructor
  · rintro ⟨t, ts, m, hts, hm, hshort⟩
    refine toFullTipSets_error res ⟨t, ts, hts, ?_⟩
    rintro ⟨msgs, hmsgs, hok⟩
    rw [hm] at hmsgs
    cases hmsgs
    rcases hok with hnil | ⟨m1, hm1, hblocks⟩
    · simp [hnil] at hshort
    · cases hm1
      rcases hshort with hlt | hlt
      · obtain ⟨⟨l1, hl1, _⟩, _⟩ := hblocks m.BlsIncludes.length hlt
        simp at hl1
      · obtain ⟨_, ⟨l2, hl2, _⟩⟩ := hblocks m.SecpkIncludes.length hlt
        simp at hl2
  · intro hcover
    by_cases hne : res.Tipsets = []
    · exact ⟨none, by simp [ValidatedResponse.toFullTipSets, hne]⟩
    · exact ⟨_, toFullTipSets_ok res hne (includesCover_tipsetOk res hcover)⟩

/-- C3 (witness): `shortIncludesResponse` has too few lists and panics;
`longIncludesResponse` has lists to spare and returns. -/
theorem toFullTipSets_includes_length_witness :
    (IncludesTooShort shortIncludesResponse ∧
        ∃ p, shortIncludesResponse.toFullTipSets = .error p) ∧
      (IncludesCover longIncludesResponse ∧
        ∃ out, longIncludesResponse.toFullTipSets = .ok out) :=
  have hshort : IncludesTooShort shortIncludesResponse :=
    ⟨0, _, _, rfl, rfl, Or.inl (by decide)⟩
  have hlong : IncludesCover longIncludesResponse := by
    intro t ts hts
    cases t with
    | succ t => simp [longIncludesResponse] at hts
    | zero =>
      cases hts
      refine ⟨_, rfl, by decide, by decide, ?_, ?_⟩
      · intro i l hi hl k hk
        have hi2 : i < 2 := hi
        interval_cases i <;> simp at hl <;> subst hl <;> simp at hk ⊢ <;> omega
      · intro i l hi hl k hk
        have hi2 : i < 2 := hi
        interval_cases i <;> simp at hl <;> subst hl <;> simp at hk ⊢
        omega
  ⟨⟨hshort, (toFullTipSets_includes_length shortIncludesResponse).1 hshort⟩,
    ⟨hlong, (toFullTipSets_includes_length longIncludesResponse).2 hlong⟩⟩

/-- C5: when a tipset is missing its compacted messages (`Messages` is shorter
than `Tipsets`, or the entry of a tipset that has blocks is nil),
`toFullTipSets` fails: it stops with a run-time panic and returns no chain. -/
theorem toFullTipSets_messages_missing {H M S : Type} (res : ValidatedResponse H M S)
    (h : MessagesMissing res) :
    (∃ p, res.toFullTipSets = .error p) ∧ ∀ out, res.toFullTipSets ≠ .ok out := by
  have herr : ∃ p, res.toFullTipSets = .error p := by
    rcases h with hlt | ⟨t, ts, hts, hne, hnil⟩
    · refine toFullTipSets_error res
        ⟨res.Messages.length, res.Tipsets[res.Messages.length], List.getElem?_eq_getElem hlt, ?_⟩
      rintro ⟨msgs, hmsgs, _⟩
      simp at hmsgs
    · refine toFullTipSets_error res ⟨t, ts, hts, ?_⟩
      rintro ⟨msgs, hmsgs, hok⟩
      rw [hnil] at hmsgs
      cases hmsgs
      rcases hok with hnil | ⟨m1, hm1, _⟩
      · exact hne hnil
      · cases hm1
  obtain ⟨p, hp⟩ := herr
  exact ⟨⟨p, hp⟩, fun out hout => by rw [hp] at hout; cases hout⟩

/-- C5 (witness): the tipset of `nilMessagesResponse` has blocks and a nil entry
in `Messages`. -/
theorem toFullTipSets_messages_missing_witness :
    MessagesMissing nilMessagesResponse ∧
      (∃ p, nilMessagesResponse.toFullTipSets = .error p) ∧
      ∀ out, nilMessagesResponse.toFullTipSets ≠ .ok out :=
  have h : MessagesMissing nilMessagesResponse :=
    Or.inr ⟨0, _, rfl, by simp [nilMessagesResponse], rfl⟩
  ⟨h, toFullTipSets_messages_missing nilMessagesResponse h⟩

/-- C4: compacted-message round trip: encoding a chain of full tipsets (each
distinct message once in its pool, each block recording its pool indices in
reference order) and decoding it with `toFullTipSets` gives back every tipset,
with the headers and the bls and secpk messages of every block equal to the
original ones, in the same order (the empty chain decodes to the nil slice). -/
theorem toFullTipSets_compactChain {H M S : Type} [DecidableEq M] [DecidableEq S]
    (chain : List (FullTipSet H M S)) :
    (compactChain chain).toFullTipSets =
      .ok (if chain.isEmpty then none else some (chain.map some)) := by
  cases hchain : chain with
  | nil => simp [compactChain, ValidatedResponse.toFullTipSets]
  | cons fts rest =>
    rw [← hchain]
    have hne : (compactChain chain).Tipsets ≠ [] := by
      simp [compactChain, hchain]
    rw [toFullTipSets_ok _ hne (compactChain_tipsetOk chain)]
    have hemp : chain.isEmpty = false := by simp [hchain]
    simp only [hemp, Bool.false_eq_true, if_false]
    congr 2
    apply List.ext_getElem?
    intro t
    rw [getElem?_enumFrom_map, List.getElem?_map]
    cases hc : chain[t]? with
    | none => simp [compactChain, hc]
    | some f =>
      simp only [compactChain, List.getElem?_map, hc, Option.map_some']
      exact congrArg some (congrArg some (compactChain_expectedTipSet chain t f hc))

/-! ## Texts of the errors -/

theorem data_append_getElem? (p a : String) (i : Nat) (h : i < p.data.length) :
    (p ++ a).data[i]? = p.data[i]? := by
  rw [String.data_append, List.getElem?_append_left h]

theorem string_append_cancel (p a b : String) (h : p ++ a = p ++ b) : a = b := by
  have hd := congrArg String.data h
  rw [String.data_append, String.data_append] at hd
  exact String.ext (List.append_cancel_left hd)

theorem kindOfText_internalError (a : String) :
    kindOfText ("block sync peer errored: " ++ a) = .internalError := by
  have h0 : ("block sync peer errored: " ++ a).data[0]? = some 'b' := by
    rw [data_append_getElem? _ _ _ (by decide)]; rfl
  have h11 : ("block sync peer errored: " ++ a).data[11]? = some 'p' := by
    rw [data_append_getElem? _ _ _ (by decide)]; rfl
  simp [kindOfText, h0, h11]

theorem kindOfText_badRequest (a : String) :
    kindOfText ("block sync request invalid: " ++ a) = .badRequest := by
  have h0 : ("block sync request invalid: " ++ a).data[0]? = some 'b' := by
    rw [data_append_getElem? _ _ _ (by decide)]; rfl
  have h11 : ("block sync request invalid: " ++ a).data[11]? = some 'r' := by
    rw [data_append_getElem? _ _ _ (by decide)]; rfl
  simp [kindOfText, h0, h11]

theorem kindOfText_unrecognized (a : String) :
    kindOfText ("unrecognized response code: " ++ a) = .unrecognized := by
  have h0 : ("unrecognized response code: " ++ a).data[0]? = some 'u' := by
    rw [data_append_getElem? _ _ _ (by decide)]; rfl
  simp [kindOfText, h0]

theorem kindOfText_statusToError {H M S : Type} (res : Response H M S)
    (h : res.Status ≠ Ok ∧ res.Status ≠ Partial) :
    ∃ e, res.statusToError = some e ∧ kindOfText e.text = errorKind res.Status := by
  unfold Response.statusToError errorKind
  have hno : ¬ (res.Status = Ok ∨ res.Status = Partial) := fun hc => hc.elim h.1 h.2
  simp only [hno, if_false]
  split_ifs
  · exact ⟨_, rfl, by decide⟩
  · exact ⟨_, rfl, by decide⟩
  · exact ⟨_, rfl, kindOfText_internalError _⟩
  · exact ⟨_, rfl, kindOfText_badRequest _⟩
  · exact ⟨_, rfl, kindOfText_unrecognized _⟩

/-! ## Claims about `statusToError` -/

/-- C6: for every response, whatever its error message and chain,
`statusToError` returns nil if and only if the status is 0 (`Ok`) or 101
(`Partial`); for every other status, 201 to 204 included, the error is not
nil. -/
theorem statusToError_nil_iff {H M S : Type} (res : Response H M S) :
    res.statusToError = none ↔ res.Status = 0 ∨ res.Status = 101 := by
  unfold Response.statusToError
  simp only [Ok, Partial]
  constructor
  · intro h
    by_contra hc
    simp only [hc, if_false] at h
    split_ifs at h
  · intro h
    simp [h]

/-- C7: for a status outside 0, 101, 201, 202, 203 and 204, `statusToError`
returns the error whose text is `unrecognized response code: ` followed by the
decimal digits of the status; the result is not nil. -/
theorem statusToError_unrecognized {H M S : Type} (res : Response H M S)
    (h : res.Status ∉ [0, 101, 201, 202, 203, 204]) :
    res.statusToError = some ⟨"unrecognized response code: " ++ toString res.Status⟩ ∧
      res.statusToError ≠ none := by
  simp only [List.mem_cons, List.mem_singleton, List.not_mem_nil, or_false, not_or] at h
  obtain ⟨h0, h1, h2, h3, h4, h5⟩ := h
  have heq : res.statusToError =
      some ⟨"unrecognized response code: " ++ toString res.Status⟩ := by
    simp [Response.statusToError, Ok, Partial, NotFound, GoAway, InternalError, BadRequest,
      h0, h1, h2, h3, h4, h5]
  exact ⟨heq, by rw [heq]; simp⟩

/-- C7 (witness): the status 999. -/
theorem statusToError_unrecognized_witness :
    (999 ∉ [0, 101, 201, 202, 203, 204]) ∧
      (Response.statusToError (⟨999, "", []⟩ : Response Nat Nat Nat) =
          some ⟨"unrecognized response code: " ++ toString 999⟩ ∧
        Response.statusToError (⟨999, "", []⟩ : Response Nat Nat Nat) ≠ none) ∧
      "unrecognized response code: " ++ toString 999 = "unrecognized response code: 999" :=
  ⟨by decide, statusToError_unrecognized (⟨999, "", []⟩ : Response Nat Nat Nat) (by decide),
    by decide⟩

/-- C8: two responses whose statuses are errors of different kinds (not found,
go away, internal error, bad request, unrecognized) get errors with different
texts, whatever their error messages; the kind of each can be read back from
the text of its error. -/
theorem statusToError_kinds_distinct {H M S : Type} (r1 r2 : Response H M S)
    (h1 : r1.Status ≠ Ok ∧ r1.Status ≠ Partial) (h2 : r2.Status ≠ Ok ∧ r2.Status ≠ Partial)
    (hk : errorKind r1.Status ≠ errorKind r2.Status) :
    ∃ e1 e2, r1.statusToError = some e1 ∧ r2.statusToError = some e2 ∧
      e1.text ≠ e2.text ∧
      kindOfText e1.text = errorKind r1.Status ∧ kindOfText e2.text = errorKind r2.Status := by
  obtain ⟨e1, he1, hk1⟩ := kindOfText_statusToError r1 h1
  obtain ⟨e2, he2, hk2⟩ := kindOfText_statusToError r2 h2
  refine ⟨e1, e2, he1, he2, ?_, hk1, hk2⟩
  intro heq
  apply hk
  rw [← hk1, ← hk2, heq]

/-- C8 (witness): an internal error and a bad request with the same message. -/
theorem statusToError_kinds_distinct_witness :
    errorKind 203 ≠ errorKind 204 ∧
      ∃ e1 e2, Response.statusToError (⟨203, "x", []⟩ : Response Nat Nat Nat) = some e1 ∧
        Response.statusToError (⟨204, "x", []⟩ : Response Nat Nat Nat) = some e2 ∧
        e1.text ≠ e2.text ∧
        kindOfText e1.text = errorKind 203 ∧ kindOfText e2.text = errorKind 204 :=
  ⟨by decide,
    statusToError_kinds_distinct (⟨203, "x", []⟩ : Response Nat Nat Nat) ⟨204, "x", []⟩
      ⟨by decide, by decide⟩ ⟨by decide, by decide⟩ (by decide)⟩

/-- C9: with status `InternalError` (203) the text of the error is
`block sync peer errored: ` followed by the error message of the response, with
`BadRequest` (204) it is `block sync request invalid: ` followed by the error
message; two responses with these statuses and different error messages get
different errors. -/
theorem statusToError_carries_message {H M S : Type} :
    (∀ (msg : String) (chain : List (Option (BSTipSet H M S))),
        Response.statusToError ⟨203, msg, chain⟩ = some ⟨"block sync peer errored: " ++ msg⟩) ∧
      (∀ (msg : String) (chain : List (Option (BSTipSet H M S))),
        Response.statusToError ⟨204, msg, chain⟩ =
          some ⟨"block sync request invalid: " ++ msg⟩) ∧
      ∀ r1 r2 : Response H M S, (r1.Status = 203 ∨ r1.Status = 204) →
        (r2.Status = 203 ∨ r2.Status = 204) → r1.ErrorMessage ≠ r2.ErrorMessage →
        r1.statusToError ≠ r2.statusToError := by
  have h203 : ∀ r : Response H M S, r.Status = 203 →
      r.statusToError = some ⟨"block sync peer errored: " ++ r.ErrorMessage⟩ := by
    intro r hr
    simp [Response.statusToError, Ok, Partial, NotFound, GoAway, InternalError, hr]
  have h204 : ∀ r : Response H M S, r.Status = 204 →
      r.statusToError = some ⟨"block sync request invalid: " ++ r.ErrorMessage⟩ := by
    intro r hr
    simp [Response.statusToError, Ok, Partial, NotFound, GoAway, InternalError, BadRequest, hr]
  refine ⟨fun msg chain => h203 ⟨203, msg, chain⟩ rfl,
    fun msg chain => h204 ⟨204, msg, chain⟩ rfl, ?_⟩
  intro r1 r2 hs1 hs2 hne heq
  rcases hs1 with hs1 | hs1 <;> rcases hs2 with hs2 | hs2
  · rw [h203 r1 hs1, h203 r2 hs2] at heq
    exact hne (string_append_cancel _ _ _ (congrArg GoError.text (Option.some.inj heq)))
  · rw [h203 r1 hs1, h204 r2 hs2] at heq
    have := congrArg (fun e => kindOfText e.text) (Option.some.inj heq)
    simp only [kindOfText_internalError, kindOfText_badRequest] at this
    cases this
  · rw [h204 r1 hs1, h203 r2 hs2] at heq
    have := congrArg (fun e => kindOfText e.text) (Option.some.inj heq)
    simp only [kindOfText_internalError, kindOfText_badRequest] at this
    cases this
  · rw [h204 r1 hs1, h204 r2 hs2] at heq
    exact hne (string_append_cancel _ _ _ (congrArg GoError.text (Option.some.inj heq)))

/-- C9 (witness): two internal errors with the messages `a` and `b`. -/
theorem statusToError_carries_message_witness :
    ("a" ≠ "b") ∧
      Response.statusToError (⟨203, "a", []⟩ : Response Nat Nat Nat) ≠
        Response.statusToError (⟨203, "b", []⟩ : Response Nat Nat Nat) :=
  ⟨by decide,
    (statusToError_carries_message (H := Nat) (M := Nat) (S := Nat)).2.2
      ⟨203, "a", []⟩ ⟨203, "b", []⟩ (Or.inl rfl) (Or.inl rfl) (by decide)⟩

/-- C10: the result of `statusToError` does not depend on the chain: two
responses with the same status and error message get the same result whatever
their chains; with status `NotFound` (201) the result is the error with text
`not found`, for every chain and every error message. -/
theorem statusToError_ignores_chain {H M S : Type} (status : Nat) (msg : String)
    (chain1 chain2 : List (Option (BSTipSet H M S))) :
    Response.statusToError ⟨status, msg, chain1⟩ =
        Response.statusToError ⟨status, msg, chain2⟩ ∧
      Response.statusToError ⟨201, msg, chain1⟩ = some ⟨"not found"⟩ :=
  ⟨rfl, rfl⟩

/-! ## The option field -/

theorem and_one_ne_zero (x : Nat) : (x &&& 1 != 0) = x.testBit 0 := by
  rw [Nat.and_one_is_mod, Nat.testBit_zero]
  rcases Nat.mod_two_eq_zero_or_one x with h | h <;> simp [h]

theorem and_two_ne_zero (x : Nat) : (x &&& 2 != 0) = x.testBit 1 := by
  have h : x &&& 2 = (x.testBit 1).toNat * 2 ^ 1 := Nat.and_two_pow x 1
  cases hb : x.testBit 1 <;> simp [hb] at h <;> simp [h]

theorem parseOptions_testBit (x : Nat) :
    parseOptions x = { IncludeHeaders := x.testBit 0, IncludeMessages := x.testBit 1 } := by
  simp only [parseOptions, Headers, Messages, and_one_ne_zero, and_two_ne_zero]

theorem testBit_three (i : Nat) : Nat.testBit 3 i = decide (i < 2) := by
  match i with
  | 0 => decide
  | 1 => decide
  | i + 2 =>
    rw [Nat.testBit_to_div_mod]
    have hpow : 2 ^ 2 ≤ 2 ^ (i + 2) := Nat.pow_le_pow_right (by decide) (by omega)
    have hdiv : 3 / 2 ^ (i + 2) = 0 := Nat.div_eq_of_lt (by omega)
    simp [hdiv]

theorem and_three_eq_zero_iff (x : Nat) :
    x &&& 3 = 0 ↔ x.testBit 0 = false ∧ x.testBit 1 = false := by
  constructor
  · intro h
    have h0 := congrArg (fun y => y.testBit 0) h
    have h1 := congrArg (fun y => y.testBit 1) h
    simp only [Nat.testBit_and, Nat.zero_testBit, testBit_three] at h0 h1
    exact ⟨by simpa using h0, by simpa using h1⟩
  · intro ⟨h0, h1⟩
    apply Nat.eq_of_testBit_eq
    intro i
    rw [Nat.testBit_and, Nat.zero_testBit, testBit_three]
    match i with
    | 0 => simp [h0]
    | 1 => simp [h1]
    | i + 2 => simp

/-! ## Claims about the request options -/

/-- C11: for every option field `parseOptions` returns a value, whose
`IncludeHeaders` is true if and only if bit 0 of the field (value 1, the
constant `Headers`) is set and whose `IncludeMessages` is true if and only if
bit 1 (value 2, the constant `Messages`) is set. -/
theorem parseOptions_bits (optfield : Nat) :
    Headers = 2 ^ 0 ∧ Messages = 2 ^ 1 ∧
      ((parseOptions optfield).IncludeHeaders = true ↔ optfield.testBit 0 = true) ∧
      ((parseOptions optfield).IncludeMessages = true ↔ optfield.testBit 1 = true) := by
  rw [parseOptions_testBit]
  exact ⟨rfl, rfl, Iff.rfl, Iff.rfl⟩

/-- C12: option round trip: packing two booleans as the bitwise OR of `Headers`
when the first is true and of `Messages` when the second is true, and applying
`parseOptions`, returns the two booleans. -/
theorem parseOptions_pack (includeHeaders includeMessages : Bool) :
    parseOptions ((if includeHeaders then Headers else 0) |||
        (if includeMessages then Messages else 0)) =
      { IncludeHeaders := includeHeaders, IncludeMessages := includeMessages } := by
  cases includeHeaders <;> cases includeMessages <;> decide

/-- C13: `parseOptions` ignores the bits above bit 1: the result for `x` is the
result for `x AND 3`. -/
theorem parseOptions_and_three (x : Nat) : parseOptions x = parseOptions (x &&& 3) := by
  rw [parseOptions_testBit, parseOptions_testBit, Nat.testBit_and, Nat.testBit_and,
    testBit_three, testBit_three]
  simp

/-- C14: `noOptionsSet` of `parseOptions x` is true if and only if neither bit 0
nor bit 1 of `x` is set, that is `x AND 3 = 0`; a request whose option field is
such, whatever its head and length, is rejected by the request validator. -/
theorem noOptionsSet_parseOptions (x : Nat) :
    ((parseOptions x).noOptionsSet = true ↔ x &&& 3 = 0) ∧
      ((parseOptions x).noOptionsSet = true ↔
        x.testBit 0 = false ∧ x.testBit 1 = false) ∧
      (x &&& 3 = 0 → ∀ (C : Type) (maxRequestLength : Nat) (head : List C) (length : Nat),
        ∃ e, validateRequest maxRequestLength ⟨head, length, x⟩ = .error e) := by
  have hbits : (parseOptions x).noOptionsSet = true ↔
      x.testBit 0 = false ∧ x.testBit 1 = false := by
    rw [parseOptions_testBit]
    simp [parsedOptions.noOptionsSet]
  refine ⟨by rw [hbits, and_three_eq_zero_iff], hbits, ?_⟩
  intro hx C maxRequestLength head length
  have hno : (parseOptions x).noOptionsSet = true := by
    rw [hbits, ← and_three_eq_zero_iff]; exact hx
  unfold validateRequest
  simp only [hno]
  split_ifs
  · exact ⟨_, rfl⟩
  · exact ⟨_, rfl⟩
  · exact ⟨_, rfl⟩

/-- C14 (witness): the option field 4 is not zero and carries bit 2 only. -/
theorem noOptionsSet_parseOptions_witness :
    (4 ≠ 0 ∧ 4 &&& 3 = 0) ∧ (parseOptions 4).noOptionsSet = true ∧
      ∃ e, validateRequest 100 (⟨["head"], 1, 4⟩ : Request String) = .error e :=
  ⟨by decide, ((noOptionsSet_parseOptions 4).1).mpr (by decide),
    (noOptionsSet_parseOptions 4).2.2 (by decide) String 100 ["head"] 1⟩

/-! ## Shape of the result of `toFullTipSets` -/

theorem tipsetOk_of_ok {H M S : Type} (res : ValidatedResponse H M S)
    (out : Option (List (Option (FullTipSet H M S)))) (h : res.toFullTipSets = .ok out)
    (t : Nat) (ts : TipSet H) (hts : res.Tipsets[t]? = some ts) :
    TipsetOk res.Messages t ts := by
  by_contra hbad
  obtain ⟨p, hp⟩ := toFullTipSets_error res ⟨t, ts, hts, hbad⟩
  rw [hp] at h
  cases h

theorem expectedTipSet_headers {H M S : Type}
    (messages : List (Option (CompactedMessages M S))) (t : Nat) (ts : TipSet H)
    (h : TipsetOk messages t ts) :
    (expectedTipSet messages t ts).Blocks.map (fun fb => fb.Header) = ts.Blocks := by
  obtain ⟨msgs, hm, hok⟩ := h
  simp only [expectedTipSet, hm, Option.getD_some]
  cases msgs with
  | none =>
    rcases hok with hnil | ⟨m, hm1, _⟩
    · simp [expectedBlocks, hnil]
    · cases hm1
  | some m =>
    simp only [expectedBlocks, List.map_map]
    have hfun : ((fun fb : FullBlock H M S => fb.Header) ∘
        fun p : Nat × H => expectedBlock m p.1 p.2) = Prod.snd := by
      funext p
      rfl
    rw [hfun, List.enumFrom_map_snd]

theorem toFullTipSets_of_ok {H M S : Type} (res : ValidatedResponse H M S)
    (out : Option (List (Option (FullTipSet H M S)))) (hne : res.Tipsets ≠ [])
    (h : res.toFullTipSets = .ok out) :
    out = some ((res.Tipsets.enumFrom 0).map
      (fun p => some (expectedTipSet res.Messages p.1 p.2))) := by
  rw [toFullTipSets_ok res hne (tipsetOk_of_ok res out h)] at h
  exact (Except.ok.inj h).symm

/-- C15: when `toFullTipSets` returns a result for a response with `n > 0`
tipsets, the result has exactly `n` entries, none of them nil, entry `t` has as
many blocks as tipset `t`, and its block `i` is complete: its header is block
`i` of tipset `t`, the entry of `Messages` of the tipset is not nil and has the
lists `BlsIncludes[i]` and `SecpkIncludes[i]`, and the messages of the block are
the pool entries of every index of these lists, in list order, each index being
inside its pool. A response for which a block cannot be decoded so gets no
result. -/
theorem toFullTipSets_complete {H M S : Type} (res : ValidatedResponse H M S)
    (out : Option (List (Option (FullTipSet H M S)))) (hne : res.Tipsets ≠ [])
    (h : res.toFullTipSets = .ok out) :
    ∃ ftsList : List (Option (FullTipSet H M S)), out = some ftsList ∧
      ftsList.length = res.Tipsets.length ∧ (∀ e ∈ ftsList, e ≠ none) ∧
      ∀ (t : Nat) (ts : TipSet H), res.Tipsets[t]? = some ts →
        ∃ fts : FullTipSet H M S, ftsList[t]? = some (some fts) ∧
          fts.Blocks.length = ts.Blocks.length ∧
          ∀ (i : Nat) (b : H), ts.Blocks[i]? = some b →
            ∃ (fb : FullBlock H M S) (m : CompactedMessages M S) (bls secpk : List Nat),
              fts.Blocks[i]? = some fb ∧ fb.Header = b ∧
              res.Messages[t]? = some (some m) ∧
              m.BlsIncludes[i]? = some bls ∧ m.SecpkIncludes[i]? = some secpk ∧
              (∀ k ∈ bls, k < m.Bls.length) ∧ (∀ k ∈ secpk, k < m.Secpk.length) ∧
              fb.BlsMessages.map some = bls.map (fun k => m.Bls[k]?) ∧
              fb.SecpkMessages.map some = secpk.map (fun k => m.Secpk[k]?) := by
  refine ⟨_, toFullTipSets_of_ok res out hne h, by simp, ?_, ?_⟩
  · intro e he
    simp only [List.mem_map] at he
    obtain ⟨p, _, rfl⟩ := he
    simp
  · intro t ts hts
    have hok := tipsetOk_of_ok res out h t ts hts
    have hhead := expectedTipSet_headers res.Messages t ts hok
    refine ⟨expectedTipSet res.Messages t ts, by simp [getElem?_enumFrom_map, hts], ?_, ?_⟩
    · rw [← hhead, List.length_map]
    · intro i b hb
      have hi : i < ts.Blocks.length := lt_length_of_getElem? _ _ _ hb
      obtain ⟨msgs, hm, hblocks⟩ := hok
      rcases hblocks with hnil | ⟨m, rfl, hblocks⟩
      · simp [hnil] at hi
      · obtain ⟨⟨bls, hbls, hbound⟩, ⟨secpk, hsecpk, hsbound⟩⟩ := hblocks i hi
        refine ⟨expectedBlock m i b, m, bls, secpk, ?_, rfl, hm, hbls, hsecpk, hbound,
          hsbound, ?_, ?_⟩
        · simp [expectedTipSet, expectedBlocks, hm, getElem?_enumFrom_map, hb]
        · simp only [expectedBlock, hbls, Option.getD_some]
          exact resolve_map_some _ _ hbound
        · simp only [expectedBlock, hsecpk, Option.getD_some]
          exact resolve_map_some _ _ hsbound

/-- C15 (witness): the result for `wellFormedResponse`, one tipset of two
blocks. -/
theorem toFullTipSets_complete_witness :
    wellFormedResponse.Tipsets ≠ [] ∧
      wellFormedResponse.toFullTipSets =
        .ok (some [some { Blocks := [
          { Header := "h0", BlsMessages := [10, 11], SecpkMessages := [] },
          { Header := "h1", BlsMessages := [11], SecpkMessages := [20] }] }]) ∧
      ∃ ftsList : List (Option (FullTipSet String Nat Nat)),
        some [some { Blocks := [
          { Header := "h0", BlsMessages := [10, 11], SecpkMessages := [] },
          { Header := "h1", BlsMessages := [11], SecpkMessages := [20] }] }] = some ftsList ∧
        ftsList.length = wellFormedResponse.Tipsets.length ∧ (∀ e ∈ ftsList, e ≠ none) ∧
        ∀ (t : Nat) (ts : TipSet String), wellFormedResponse.Tipsets[t]? = some ts →
          ∃ fts : FullTipSet String Nat Nat, ftsList[t]? = some (some fts) ∧
            fts.Blocks.length = ts.Blocks.length ∧
            ∀ (i : Nat) (b : String), ts.Blocks[i]? = some b →
              ∃ (fb : FullBlock String Nat Nat) (m : CompactedMessages Nat Nat)
                  (bls secpk : List Nat),
                fts.Blocks[i]? = some fb ∧ fb.Header = b ∧
                wellFormedResponse.Messages[t]? = some (some m) ∧
                m.BlsIncludes[i]? = some bls ∧ m.SecpkIncludes[i]? = some secpk ∧
                (∀ k ∈ bls, k < m.Bls.length) ∧ (∀ k ∈ secpk, k < m.Secpk.length) ∧
                fb.BlsMessages.map some = bls.map (fun k => m.Bls[k]?) ∧
                fb.SecpkMessages.map some = secpk.map (fun k => m.Secpk[k]?) :=
  ⟨by simp [wellFormedResponse], rfl,
    toFullTipSets_complete wellFormedResponse _ (by simp [wellFormedResponse]) rfl⟩

/-- C16: with an empty list of tipsets `toFullTipSets` returns the nil slice,
whatever `Messages` holds; with a non-empty list of tipsets a returned result
is not nil. -/
theorem toFullTipSets_nil {H M S : Type} :
    (∀ messages : List (Option (CompactedMessages M S)),
        ValidatedResponse.toFullTipSets
          ({ Tipsets := [], Messages := messages } : ValidatedResponse H M S) = .ok none) ∧
      ∀ (res : ValidatedResponse H M S) (out : Option (List (Option (FullTipSet H M S)))),
        res.Tipsets ≠ [] → res.toFullTipSets = .ok out → out ≠ none := by
  constructor
  · intro messages
    rfl
  · intro res out hne h
    rw [toFullTipSets_of_ok res out hne h]
    simp

/-- C16 (witness): the tipsets of `spareEntriesResponse` are not empty and its
result is not nil; without tipsets, a nil entry and an entry with an index
outside its pool are not looked at. -/
theorem toFullTipSets_nil_witness :
    ValidatedResponse.toFullTipSets
        ({ Tipsets := [], Messages := [none, some { Bls := [], BlsIncludes := [[3]]
                                                    Secpk := [], SecpkIncludes := [] }] } :
          ValidatedResponse String Nat Nat) = .ok none ∧
      spareEntriesResponse.Tipsets ≠ [] ∧
      (some [some { Blocks := [{ Header := "h0", BlsMessages := [10, 10],
                                 SecpkMessages := [21] }] },
             some { Blocks := [{ Header := "h1", BlsMessages := [],
                                 SecpkMessages := [22] }] }] :
        Option (List (Option (FullTipSet String Nat Nat)))) ≠ none :=
  ⟨(toFullTipSets_nil (H := String) (M := Nat) (S := Nat)).1 _,
    by simp [spareEntriesResponse],
    (toFullTipSets_nil (H := String) (M := Nat) (S := Nat)).2 spareEntriesResponse _
      (by simp [spareEntriesResponse]) rfl⟩

/-- C17: when every tipset has a non-nil entry in `Messages`, with at least one
list per block in `BlsIncludes` and in `SecpkIncludes`, and every index of the
lists of its blocks is below the length of its pool, no access of
`toFullTipSets` panics and the function returns a result. -/
theorem toFullTipSets_no_panic {H M S : Type} (res : ValidatedResponse H M S)
    (h : IncludesCover res) :
    (∃ out, res.toFullTipSets = .ok out) ∧ ∀ p, res.toFullTipSets ≠ .error p := by
  have hok : ∃ out, res.toFullTipSets = .ok out := by
    by_cases hne : res.Tipsets = []
    · exact ⟨none, by simp [ValidatedResponse.toFullTipSets, hne]⟩
    · exact ⟨_, toFullTipSets_ok res hne (includesCover_tipsetOk res h)⟩
  obtain ⟨out, hout⟩ := hok
  exact ⟨⟨out, hout⟩, fun p hp => by rw [hout] at hp; cases hp⟩

/-- C17 (witness): `spareEntriesResponse` has an entry for each tipset and at
least one list per block, and returns a result. -/
theorem toFullTipSets_no_panic_witness :
    IncludesCover spareEntriesResponse ∧
      (∃ out, spareEntriesResponse.toFullTipSets = .ok out) ∧
      ∀ p, spareEntriesResponse.toFullTipSets ≠ .error p :=
  have h : IncludesCover spareEntriesResponse := by
    intro t ts hts
    match t, hts with
    | 0, hts =>
      cases hts
      refine ⟨_, rfl, by decide, by decide, ?_, ?_⟩
      · intro i l hi hl k hk
        have hi1 : i < 1 := hi
        interval_cases i
        simp at hl
        subst hl
        simp at hk ⊢
        omega
      · intro i l hi hl k hk
        have hi1 : i < 1 := hi
        interval_cases i
        simp at hl
        subst hl
        simp at hk ⊢
        omega
    | 1, hts =>
      cases hts
      refine ⟨_, rfl, by decide, by decide, ?_, ?_⟩
      · intro i l hi hl k hk
        have hi1 : i < 1 := hi
        interval_cases i
        simp at hl
        subst hl
        simp at hk
      · intro i l hi hl k hk
        have hi1 : i < 1 := hi
        interval_cases i
        simp at hl
        subst hl
        simp at hk ⊢
        omega
    | t + 2, hts => simp [spareEntriesResponse] at hts
  ⟨h, toFullTipSets_no_panic spareEntriesResponse h⟩

end Blocksync
